import Mathlib

/-!
Verification development for the matrixcube shard replication and routing
core.  The Go sources are shallowly embedded: byte strings become `List Nat`,
Go maps become association lists, fallible or panicking code returns
`Option`, and each embedded function mirrors the control flow of its source
function (file and function names are noted on every definition).
-/

namespace MatrixCube

/-! ## Byte-string keys and `bytes.Compare` -/

/-- A byte string (Go `[]byte`); each element is one byte. -/
abbrev Key := List Nat

/-- Embedding of Go `bytes.Compare`: lexicographic three-way comparison. -/
def bytesCompare : Key → Key → Ordering
  | [], [] => .eq
  | [], _ :: _ => .lt
  | _ :: _, [] => .gt
  | a :: as, b :: bs =>
    if a < b then .lt
    else if b < a then .gt
    else bytesCompare as bs

theorem bytesCompare_self : ∀ a : Key, bytesCompare a a = .eq
  | [] => rfl
  | _ :: as => by
    simp only [bytesCompare, lt_irrefl, if_false]
    exact bytesCompare_self as

theorem bytesCompare_eq_iff : ∀ a b : Key, bytesCompare a b = .eq ↔ a = b
  | [], [] => by simp [bytesCompare]
  | [], _ :: _ => by simp [bytesCompare]
  | _ :: _, [] => by simp [bytesCompare]
  | a :: as, b :: bs => by
    simp only [bytesCompare]
    rcases Nat.lt_trichotomy a b with h | h | h
    · simp [h, Nat.not_lt_of_lt h]
      intro hab
      omega
    · subst h
      simp [lt_irrefl, bytesCompare_eq_iff as bs]
    · simp [h, Nat.not_lt_of_lt h]
      intro hab
      omega

theorem bytesCompare_swap : ∀ a b : Key, (bytesCompare a b).swap = bytesCompare b a
  | [], [] => rfl
  | [], _ :: _ => rfl
  | _ :: _, [] => rfl
  | a :: as, b :: bs => by
    simp only [bytesCompare]
    rcases Nat.lt_trichotomy a b with h | h | h
    · simp [h, Nat.not_lt_of_lt h, Ordering.swap]
    · subst h
      simp [lt_irrefl, bytesCompare_swap as bs]
    · simp [h, Nat.not_lt_of_lt h, Ordering.swap]

theorem ordering_beq_iff (o o' : Ordering) : ((o == o') = true) ↔ o = o' := by
  cases o <;> cases o' <;> decide

theorem ordering_beq_false_iff (o o' : Ordering) : ((o == o') = false) ↔ o ≠ o' := by
  cases o <;> cases o' <;> decide

/-- `a` is strictly below `b` in byte order. -/
def keyLt (a b : Key) : Prop := bytesCompare a b = .lt

instance (a b : Key) : Decidable (keyLt a b) := by
  unfold keyLt
  infer_instance

theorem bytesCompare_gt_iff (a b : Key) : bytesCompare a b = .gt ↔ keyLt b a := by
  constructor
  · intro h
    have := bytesCompare_swap a b
    rw [h] at this
    exact this.symm
  · intro h
    have := bytesCompare_swap b a
    rw [h] at this
    exact this.symm

theorem keyLt_irrefl (a : Key) : ¬ keyLt a a := by
  intro h
  rw [keyLt, bytesCompare_self] at h
  exact Ordering.noConfusion h

theorem keyLt_trans : ∀ {a b c : Key}, keyLt a b → keyLt b c → keyLt a c := by
  intro a
  induction a with
  | nil =>
    intro b c hab hbc
    cases b with
    | nil => exact absurd hab (keyLt_irrefl [])
    | cons b bs =>
      cases c with
      | nil => exact absurd hbc (by simp [keyLt, bytesCompare])
      | cons c cs => simp [keyLt, bytesCompare]
  | cons a as ih =>
    intro b c hab hbc
    cases b with
    | nil => exact absurd hab (by simp [keyLt, bytesCompare])
    | cons b bs =>
      cases c with
      | nil => exact absurd hbc (by simp [keyLt, bytesCompare])
      | cons c cs =>
        simp only [keyLt, bytesCompare] at hab hbc ⊢
        rcases Nat.lt_trichotomy a b with h1 | h1 | h1
        · rcases Nat.lt_trichotomy b c with h2 | h2 | h2
          · simp [Nat.lt_trans h1 h2]
          · subst h2
            simp [h1]
          · rw [if_neg (Nat.not_lt_of_lt h2), if_pos h2] at hbc
            exact absurd hbc (by simp)
        · subst h1
          rcases Nat.lt_trichotomy a c with h2 | h2 | h2
          · simp [h2]
          · subst h2
            simp only [lt_irrefl, if_false] at hab hbc ⊢
            exact ih hab hbc
          · rw [if_neg (Nat.not_lt_of_lt h2), if_pos h2] at hbc
            exact absurd hbc (by simp)
        · rw [if_neg (Nat.not_lt_of_lt h1), if_pos h1] at hab
          exact absurd hab (by simp)

theorem keyLt_asymm {a b : Key} (h : keyLt a b) : ¬ keyLt b a := by
  intro h'
  exact keyLt_irrefl a (keyLt_trans h h')

/-- Totality: a comparison that is neither `lt` nor `gt` is equality. -/
theorem bytesCompare_eq_of_not_lt_gt {a b : Key}
    (h1 : bytesCompare a b ≠ .lt) (h2 : bytesCompare a b ≠ .gt) : a = b := by
  rcases h : bytesCompare a b with _ | _ | _
  · exact absurd h h1
  · exact (bytesCompare_eq_iff a b).mp h
  · exact absurd h h2

theorem not_gt_iff (a b : Key) : bytesCompare a b ≠ .gt ↔ (a = b ∨ keyLt a b) := by
  constructor
  · intro h
    rcases hc : bytesCompare a b with _ | _ | _
    · exact Or.inr hc
    · exact Or.inl ((bytesCompare_eq_iff a b).mp hc)
    · exact absurd hc h
  · rintro (rfl | h)
    · rw [bytesCompare_self]
      simp
    · rw [h]
      simp

theorem keyLt_of_not_gt_of_lt {a b c : Key}
    (h1 : bytesCompare a b ≠ .gt) (h2 : keyLt b c) : keyLt a c := by
  rcases (not_gt_iff a b).mp h1 with rfl | h
  · exact h2
  · exact keyLt_trans h h2

theorem keyLt_of_lt_of_not_gt {a b c : Key}
    (h1 : keyLt a b) (h2 : bytesCompare b c ≠ .gt) : keyLt a c := by
  rcases (not_gt_iff b c).mp h2 with rfl | h
  · exact h1
  · exact keyLt_trans h1 h

/-! ## Data model (pb/metapb, pb/rpcpb) -/

/-- Shard lifecycle state (`metapb.ShardState`). -/
inductive ShardState
  | Running
  | Creating
  | Destroying
  | Destroyed
  | Tombstone
deriving DecidableEq, Repr, Inhabited

/-- `metapb.ShardEpoch { generation, configVer }`. -/
structure ShardEpoch where
  generation : Nat
  configVer : Nat
deriving DecidableEq, Repr, Inhabited

/-- Replica role (`metapb.ReplicaRole`); only the `Voter` and `Learner`
roles are exercised by the embedded code. -/
inductive ReplicaRole
  | Voter
  | Learner
deriving DecidableEq, Repr, Inhabited

/-- `metapb.Replica { id, storeID, role }`. -/
structure Replica where
  id : Nat
  storeID : Nat
  role : ReplicaRole
deriving DecidableEq, Repr, Inhabited

/-- `metapb.Shard`: identity, group, key range `[start, End)` (empty `End`
meaning +infinity), epoch, state and replica list.  `End` is capitalised as
in the Go source (`end` is reserved in Lean). -/
structure Shard where
  id : Nat
  group : Nat
  start : Key
  End : Key
  epoch : ShardEpoch
  state : ShardState
  replicas : List Replica
deriving DecidableEq, Repr, Inhabited

/-- The zero `metapb.Shard` value (`emptyShard` in util). -/
def emptyShard : Shard := default

/-- `metapb.Store`: only the fields read by the embedded code. -/
structure Store where
  id : Nat
  clientAddress : String
  raftAddress : String
deriving DecidableEq, Repr, Inhabited

/-- The zero `metapb.Store` value. -/
def emptyStore : Store := default

/-! ## Association lists: the embedding of Go maps -/

/-- Go map lookup: the value bound to `k`, if any. -/
def assocFind {α : Type} (l : List (Nat × α)) (k : Nat) : Option α :=
  (l.find? (fun kv => kv.1 == k)).map (·.2)

/-- Go map write `m[k] = v`: replace the binding of `k` or append it. -/
def assocSet {α : Type} : List (Nat × α) → Nat → α → List (Nat × α)
  | [], k, v => [(k, v)]
  | kv :: rest, k, v =>
    if kv.1 == k then (k, v) :: rest else kv :: assocSet rest k v

/-- Go map delete. -/
def assocErase {α : Type} (l : List (Nat × α)) (k : Nat) : List (Nat × α) :=
  l.filter (fun kv => !(kv.1 == k))

theorem assocFind_set_self {α : Type} (l : List (Nat × α)) (k : Nat) (v : α) :
    assocFind (assocSet l k v) k = some v := by
  induction l with
  | nil => simp [assocSet, assocFind]
  | cons kv rest ih =>
    by_cases h : kv.1 = k
    · simp [assocSet, h, assocFind]
    · rw [assocSet, if_neg (by simpa using h)]
      rw [assocFind, List.find?_cons_of_neg _ (by simpa using h)]
      exact ih

theorem assocFind_set_other {α : Type} (l : List (Nat × α)) (k k' : Nat) (v : α)
    (h : k' ≠ k) : assocFind (assocSet l k v) k' = assocFind l k' := by
  induction l with
  | nil => simp [assocSet, assocFind, Ne.symm h]
  | cons kv rest ih =>
    by_cases hk : kv.1 = k
    · subst hk
      simp [assocSet, assocFind, Ne.symm h]
    · rw [assocSet, if_neg (by simpa using hk)]
      by_cases hk' : kv.1 = k'
      · rw [assocFind, List.find?_cons_of_pos _ (by simpa using hk'),
            assocFind, List.find?_cons_of_pos _ (by simpa using hk')]
      · rw [assocFind, List.find?_cons_of_neg _ (by simpa using hk'),
            assocFind, List.find?_cons_of_neg _ (by simpa using hk')]
        exact ih

/-! ## ShardTree (util/shard_tree.go)

The Go `ShardTree` stores `ShardItem`s in a btree whose order is by start
key, reversed (`ShardItem.Less` compares starts with `>`).  The embedding
represents the btree as its ascending-iteration list: a list of shards with
strictly descending start keys.  `AscendGreaterOrEqual`, `DescendLessOrEqual`
and `ReplaceOrInsert` are translated according to that order. -/

/-- `ShardItem.Contains`: `key ≥ start && (End = ∅ || key < End)`. -/
def shardContains (s : Shard) (key : Key) : Bool :=
  !(bytesCompare key s.start == .lt) &&
    (s.End.isEmpty || bytesCompare key s.End == .lt)

/-- `ShardTree.find`: the first item (in descending-start order) whose start
is ≤ the probe's start (`AscendGreaterOrEqual`), returned only when it
contains the probe key. -/
def treeFind (t : List Shard) (key : Key) : Option Shard :=
  match t.dropWhile (fun s => bytesCompare s.start key == .gt) with
  | [] => none
  | r :: _ => if shardContains r key then some r else none

/-- `btree.ReplaceOrInsert` on the descending-start list: replace the item
with an equal start key, or insert in order. -/
def insertShard (n : Shard) : List Shard → List Shard
  | [] => [n]
  | s :: rest =>
    match bytesCompare n.start s.start with
    | .gt => n :: s :: rest
    | .eq => n :: rest
    | .lt => s :: insertShard n rest

/-- The early-exit condition of the `DescendLessOrEqual` callback in
`ShardTree.Update`: stop when `len(shard.End) > 0 && shard.End ≤ over.Start`. -/
def updateStop (n : Shard) (over : Shard) : Bool :=
  !n.End.isEmpty && !(bytesCompare n.End over.start == .gt)

/-- The start key of `result` in `ShardTree.Update`: the found containing
item's start, or the new shard's own start when nothing was found. -/
def updateResultStart (t : List Shard) (shard : Shard) : Key :=
  match treeFind t shard.start with
  | some r => r.start
  | none => shard.start

/-- The `overlaps` slice collected by `ShardTree.Update`:
`DescendLessOrEqual(result)` visits the stored items whose start is ≥
`result`'s start in ascending-start order (the reversal of the
descending-start representation), and the callback collects until
`updateStop` fires. -/
def overlapsRun (t : List Shard) (shard : Shard) : List Shard :=
  ((t.filter
      (fun s => !(bytesCompare s.start (updateResultStart t shard) == .lt))).reverse).takeWhile
    (fun s => !updateStop shard s)

/-- One iteration of `ShardTree.Update` for a single shard: skip
`Destroying`/`Destroyed` shards, delete every item of the collected
`overlaps` run (btree deletion keys on the start), and insert the shard. -/
def treeUpdate1 (t : List Shard) (shard : Shard) : List Shard :=
  if shard.state == .Destroyed || shard.state == .Destroying then t
  else
    insertShard shard
      (t.filter
        (fun s => !((overlapsRun t shard).any (fun o => bytesCompare o.start s.start == .eq))))

/-- `ShardTree.Update(shards...)`: fold `treeUpdate1` over the arguments. -/
def treeUpdate (t : List Shard) (shards : List Shard) : List Shard :=
  shards.foldl treeUpdate1 t

/-- `ShardTree.Remove`: delete the stored shard found at the argument's
start key, but only when its `ID` matches. -/
def treeRemove (t : List Shard) (shard : Shard) : List Shard × Bool :=
  match treeFind t shard.start with
  | none => (t, false)
  | some r =>
    if r.id == shard.id then
      (t.filter (fun s => !(bytesCompare s.start r.start == .eq)), true)
    else (t, false)

/-- `ShardTree.Search`: the stored shard containing `key`, else the empty
shard. -/
def treeSearch (t : List Shard) (key : Key) : Shard :=
  (treeFind t key).getD emptyShard

/-- `ShardTree.NextShard(start)`: iterate `DescendLessOrEqual` (ascending
start among items with start ≥ `start`) and return the first item whose
start is strictly greater. -/
def treeNextShard (t : List Shard) (start : Key) : Option Shard :=
  ((t.filter (fun s => !(bytesCompare s.start start == .lt))).reverse).find?
    (fun s => bytesCompare s.start start == .gt)

/-! ## ShardTree invariants -/

/-- Propositional form of `ShardItem.Contains`. -/
def containsP (s : Shard) (key : Key) : Prop :=
  ¬ keyLt key s.start ∧ (s.End = [] ∨ keyLt key s.End)

/-- Range overlap as stated by the spec: `s.start < n.end ∧ s.end > n.start`,
an empty `end` meaning +infinity. -/
def Overlap (a b : Shard) : Prop :=
  (a.End = [] ∨ keyLt b.start a.End) ∧ (b.End = [] ∨ keyLt a.start b.End)

/-- A shard has a well-formed (non-inverted) range. -/
def WellFormedShard (s : Shard) : Prop :=
  s.End = [] ∨ keyLt s.start s.End

/-- The list stands in the btree's ascending order: strictly descending
start keys. -/
def TreeSorted (t : List Shard) : Prop :=
  t.Pairwise (fun a b => keyLt b.start a.start)

/-- The stored ranges are pairwise non-overlapping. -/
def TreeNoOverlap (t : List Shard) : Prop :=
  t.Pairwise (fun a b => ¬ Overlap a b)

/-- All stored shards have well-formed ranges. -/
def TreeWF (t : List Shard) : Prop :=
  ∀ s ∈ t, WellFormedShard s

/-- The ShardTree representation invariant. -/
def TreeInv (t : List Shard) : Prop :=
  TreeSorted t ∧ TreeNoOverlap t ∧ TreeWF t

instance (s : Shard) (key : Key) : Decidable (containsP s key) := by
  unfold containsP
  infer_instance

instance (a b : Shard) : Decidable (Overlap a b) := by
  unfold Overlap
  infer_instance

instance (s : Shard) : Decidable (WellFormedShard s) := by
  unfold WellFormedShard
  infer_instance

theorem Overlap.symm {a b : Shard} (h : Overlap a b) : Overlap b a :=
  ⟨h.2, h.1⟩

theorem not_keyLt_iff (a b : Key) : ¬ keyLt a b ↔ (a = b ∨ keyLt b a) := by
  constructor
  · intro h
    rcases hc : bytesCompare a b with _ | _ | _
    · exact absurd hc h
    · exact Or.inl ((bytesCompare_eq_iff a b).mp hc)
    · exact Or.inr ((bytesCompare_gt_iff a b).mp hc)
  · rintro (rfl | h) hlt
    · exact keyLt_irrefl a hlt
    · exact keyLt_asymm h hlt

theorem keyLt_of_not_lt_of_lt {a b c : Key} (h1 : ¬ keyLt b a) (h2 : keyLt b c) :
    keyLt a c := by
  rcases (not_keyLt_iff b a).mp h1 with rfl | h
  · exact h2
  · exact keyLt_trans h h2

theorem shardContains_iff (s : Shard) (key : Key) :
    shardContains s key = true ↔ containsP s key := by
  unfold shardContains containsP keyLt
  rcases h1 : bytesCompare key s.start with _ | _ | _ <;>
    rcases h2 : s.End.isEmpty with _ | _ <;>
      rcases h3 : bytesCompare key s.End with _ | _ | _ <;>
        simp_all [List.isEmpty_iff] <;> decide

/-- Two shards containing a common key overlap. -/
theorem overlap_of_contains {a b : Shard} {key : Key}
    (ha : containsP a key) (hb : containsP b key) : Overlap a b := by
  refine ⟨?_, ?_⟩
  · rcases ha.2 with h | h
    · exact Or.inl h
    · exact Or.inr (keyLt_of_not_lt_of_lt hb.1 h)
  · rcases hb.2 with h | h
    · exact Or.inl h
    · exact Or.inr (keyLt_of_not_lt_of_lt ha.1 h)

theorem dropWhile_head_not {α : Type} (p : α → Bool) :
    ∀ (t : List α) (r : α) (rest : List α), t.dropWhile p = r :: rest → p r = false := by
  intro t
  induction t with
  | nil => intro r rest h; exact absurd h (by simp)
  | cons x xs ih =>
    intro r rest h
    by_cases hx : p x
    · rw [List.dropWhile_cons_of_pos hx] at h
      exact ih r rest h
    · rw [List.dropWhile_cons_of_neg hx] at h
      cases h
      exact Bool.of_not_eq_true hx

theorem mem_dropWhile_of_not {α : Type} (p : α → Bool) (t : List α) (s : α)
    (hs : s ∈ t) (hp : p s = false) : s ∈ t.dropWhile p := by
  have h := List.takeWhile_append_dropWhile p t
  rw [← h] at hs
  rcases List.mem_append.mp hs with h1 | h1
  · exact absurd (List.mem_takeWhile_imp h1) (by simp [hp])
  · exact h1

theorem treeFind_nil {t : List Shard} {key : Key}
    (hd : t.dropWhile (fun s => bytesCompare s.start key == .gt) = []) :
    treeFind t key = none := by
  unfold treeFind
  rw [hd]

theorem treeFind_cons {t : List Shard} {key : Key} {r : Shard} {rest : List Shard}
    (hd : t.dropWhile (fun s => bytesCompare s.start key == .gt) = r :: rest) :
    treeFind t key = if shardContains r key then some r else none := by
  unfold treeFind
  rw [hd]

/-- `treeFind` soundness: a found shard is stored and contains the key. -/
theorem treeFind_sound {t : List Shard} {key : Key} {r : Shard}
    (h : treeFind t key = some r) : r ∈ t ∧ containsP r key := by
  rcases hd : t.dropWhile (fun s => bytesCompare s.start key == .gt) with _ | ⟨x, rest⟩
  · rw [treeFind_nil hd] at h
    exact absurd h (by simp)
  · rw [treeFind_cons hd] at h
    by_cases hc : shardContains x key
    · rw [if_pos hc] at h
      have hxr : x = r := by injection h
      subst hxr
      have hsubl0 : List.Sublist
          (List.dropWhile (fun s : Shard => bytesCompare s.start key == Ordering.gt) t) t :=
        List.dropWhile_sublist _
      rw [hd] at hsubl0
      constructor
      · exact hsubl0.mem (List.mem_cons_self x rest)
      · exact (shardContains_iff x key).mp hc
    · rw [if_neg hc] at h
      exact absurd h (by simp)

/-- `treeFind` completeness under the invariant: if some stored shard
contains the key, `treeFind` returns it. -/
theorem treeFind_complete {t : List Shard} {key : Key} {s : Shard}
    (hsor : TreeSorted t) (hno : TreeNoOverlap t) (hwf : TreeWF t)
    (hs : s ∈ t) (hc : containsP s key) : treeFind t key = some s := by
  have hsorP : t.Pairwise (fun a b : Shard => keyLt b.start a.start) := hsor
  have hnoP : t.Pairwise (fun a b : Shard => ¬ Overlap a b) := hno
  have hnosym : Symmetric (fun a b : Shard => ¬ Overlap a b) :=
    fun _ _ h h' => h h'.symm
  have hps : (bytesCompare s.start key == Ordering.gt) = false := by
    rw [ordering_beq_false_iff, Ne, bytesCompare_gt_iff]
    exact hc.1
  have hmem := mem_dropWhile_of_not
    (fun s : Shard => bytesCompare s.start key == Ordering.gt) t s hs hps
  rcases hd : t.dropWhile (fun s => bytesCompare s.start key == .gt) with _ | ⟨r, rest⟩
  · rw [hd] at hmem
    exact absurd hmem (by simp)
  · rw [hd] at hmem
    have hsubl0 : List.Sublist
        (List.dropWhile (fun s : Shard => bytesCompare s.start key == Ordering.gt) t) t :=
      List.dropWhile_sublist _
    rw [hd] at hsubl0
    have hsubl : List.Sublist (r :: rest) t := hsubl0
    have hrt : r ∈ t := hsubl.mem (List.mem_cons_self r rest)
    have hrstart : ¬ keyLt key r.start := by
      have h3 := dropWhile_head_not _ t r rest hd
      rw [ordering_beq_false_iff, Ne, bytesCompare_gt_iff] at h3
      exact h3
    -- r contains the key: otherwise r and s would overlap
    have hrc : containsP r key := by
      by_contra hrc
      have hrend : r.End ≠ [] ∧ ¬ keyLt key r.End := by
        unfold containsP at hrc
        push_neg at hrc
        exact hrc hrstart
      -- s comes after r in the dropped suffix, hence s.start < r.start
      have hrs : s ≠ r := by
        intro h
        subst h
        exact hrend.2 (hc.2.resolve_left hrend.1)
      have hssr : keyLt s.start r.start := by
        have hpair : (r :: rest).Pairwise (fun a b : Shard => keyLt b.start a.start) :=
          hsorP.sublist hsubl
        rcases List.mem_cons.mp hmem with h | h
        · exact absurd h hrs
        · exact (List.pairwise_cons.mp hpair).1 s h
      -- derive the overlap
      have hov : Overlap s r := by
        refine ⟨?_, Or.inr ?_⟩
        · rcases hc.2 with h | h
          · exact Or.inl h
          · exact Or.inr (keyLt_of_not_lt_of_lt hrstart h)
        · -- s.start < r.start < r.End  (r is well-formed)
          rcases hwf r hrt with h | h
          · exact absurd h hrend.1
          · exact keyLt_trans hssr h
      exact (hnoP.forall hnosym hrt hs (Ne.symm hrs)) hov.symm
    -- r and s both contain the key, so they are equal by non-overlap
    have hrs : r = s := by
      by_contra hne
      exact (hnoP.forall hnosym hrt hs hne) (overlap_of_contains hrc hc)
    subst hrs
    rw [treeFind_cons hd, if_pos ((shardContains_iff r key).mpr hrc)]

/-! ### insertShard -/

theorem insertShard_cons_gt {n s : Shard} {rest : List Shard}
    (h : bytesCompare n.start s.start = .gt) :
    insertShard n (s :: rest) = n :: s :: rest := by
  unfold insertShard
  rw [h]

theorem insertShard_cons_eq {n s : Shard} {rest : List Shard}
    (h : bytesCompare n.start s.start = .eq) :
    insertShard n (s :: rest) = n :: rest := by
  unfold insertShard
  rw [h]

theorem insertShard_cons_lt {n s : Shard} {rest : List Shard}
    (h : bytesCompare n.start s.start = .lt) :
    insertShard n (s :: rest) = s :: insertShard n rest := by
  show (match bytesCompare n.start s.start with
    | Ordering.gt => n :: s :: rest
    | Ordering.eq => n :: rest
    | Ordering.lt => s :: insertShard n rest) = s :: insertShard n rest
  rw [h]

theorem mem_insertShard {n : Shard} :
    ∀ {l : List Shard} {x : Shard}, x ∈ insertShard n l → x = n ∨ x ∈ l := by
  intro l
  induction l with
  | nil =>
    intro x hx
    unfold insertShard at hx
    rcases List.mem_singleton.mp hx with rfl
    exact Or.inl rfl
  | cons s rest ih =>
    intro x hx
    rcases hc : bytesCompare n.start s.start with _ | _ | _
    · rw [insertShard_cons_lt hc] at hx
      rcases List.mem_cons.mp hx with rfl | hx
      · exact Or.inr (List.mem_cons_self _ _)
      · rcases ih hx with h | h
        · exact Or.inl h
        · exact Or.inr (List.mem_cons_of_mem _ h)
    · rw [insertShard_cons_eq hc] at hx
      rcases List.mem_cons.mp hx with rfl | hx
      · exact Or.inl rfl
      · exact Or.inr (List.mem_cons_of_mem _ hx)
    · rw [insertShard_cons_gt hc] at hx
      rcases List.mem_cons.mp hx with rfl | hx
      · exact Or.inl rfl
      · exact Or.inr hx

theorem self_mem_insertShard {n : Shard} :
    ∀ {l : List Shard}, n ∈ insertShard n l := by
  intro l
  induction l with
  | nil => exact List.mem_singleton.mpr rfl
  | cons s rest ih =>
    rcases hc : bytesCompare n.start s.start with _ | _ | _
    · rw [insertShard_cons_lt hc]
      exact List.mem_cons_of_mem _ ih
    · rw [insertShard_cons_eq hc]
      exact List.mem_cons_self _ _
    · rw [insertShard_cons_gt hc]
      exact List.mem_cons_self _ _

theorem insertShard_sorted {n : Shard} :
    ∀ {l : List Shard}, TreeSorted l → TreeSorted (insertShard n l) := by
  intro l
  induction l with
  | nil =>
    intro _
    unfold insertShard TreeSorted
    exact List.pairwise_singleton _ _
  | cons s rest ih =>
    intro hl
    have hl' : (s :: rest).Pairwise (fun a b : Shard => keyLt b.start a.start) := hl
    rw [List.pairwise_cons] at hl'
    rcases hc : bytesCompare n.start s.start with _ | _ | _
    · rw [TreeSorted, insertShard_cons_lt hc, List.pairwise_cons]
      refine ⟨?_, ih hl'.2⟩
      intro x hx
      rcases mem_insertShard hx with rfl | hx
      · exact hc
      · exact hl'.1 x hx
    · rw [TreeSorted, insertShard_cons_eq hc, List.pairwise_cons]
      refine ⟨?_, hl'.2⟩
      intro x hx
      have := hl'.1 x hx
      rwa [← (bytesCompare_eq_iff n.start s.start).mp hc] at this
    · rw [TreeSorted, insertShard_cons_gt hc, List.pairwise_cons]
      refine ⟨?_, hl⟩
      intro x hx
      rcases List.mem_cons.mp hx with rfl | hx
      · exact (bytesCompare_gt_iff n.start x.start).mp hc
      · exact keyLt_trans (hl'.1 x hx) ((bytesCompare_gt_iff n.start s.start).mp hc)

theorem pairwise_insertShard {Q : Shard → Shard → Prop} {n : Shard} :
    ∀ {l : List Shard}, l.Pairwise Q → (∀ s ∈ l, Q n s ∧ Q s n) →
      (insertShard n l).Pairwise Q := by
  intro l
  induction l with
  | nil =>
    intro _ _
    unfold insertShard
    exact List.pairwise_singleton _ _
  | cons s rest ih =>
    intro hl hn
    rw [List.pairwise_cons] at hl
    rcases hc : bytesCompare n.start s.start with _ | _ | _
    · rw [insertShard_cons_lt hc, List.pairwise_cons]
      refine ⟨?_, ih hl.2 (fun x hx => hn x (List.mem_cons_of_mem _ hx))⟩
      intro x hx
      rcases mem_insertShard hx with rfl | hx
      · exact (hn s (List.mem_cons_self _ _)).2
      · exact hl.1 x hx
    · rw [insertShard_cons_eq hc, List.pairwise_cons]
      exact ⟨fun x hx => (hn x (List.mem_cons_of_mem _ hx)).1, hl.2⟩
    · rw [insertShard_cons_gt hc, List.pairwise_cons]
      exact ⟨fun x hx => (hn x hx).1, List.pairwise_cons.mpr hl⟩

/-! ### takeWhile on a sorted run -/

theorem mem_takeWhile_of_mono {α : Type} {p : α → Bool} {R : α → α → Prop}
    (hmono : ∀ a b, R a b → p b = true → p a = true) :
    ∀ {l : List α}, l.Pairwise R → ∀ s ∈ l, p s = true → s ∈ l.takeWhile p := by
  intro l
  induction l with
  | nil =>
    intro _ s hs
    exact absurd hs (List.not_mem_nil s)
  | cons x xs ih =>
    intro hl s hs hp
    rw [List.pairwise_cons] at hl
    by_cases hpx : p x = true
    · rw [List.takeWhile_cons_of_pos hpx]
      rcases List.mem_cons.mp hs with rfl | hs
      · exact List.mem_cons_self _ _
      · exact List.mem_cons_of_mem _ (ih hl.2 s hs hp)
    · rcases List.mem_cons.mp hs with rfl | hs
      · exact absurd hp hpx
      · exact absurd (hmono x s (hl.1 s hs) hp) hpx

/-! ### Update preserves the invariant -/

theorem updateStop_eq_false_iff (n s : Shard) :
    updateStop n s = false ↔ (n.End = [] ∨ keyLt s.start n.End) := by
  unfold updateStop
  rcases h1 : n.End.isEmpty with _ | _
  · have hne : n.End ≠ [] := by
      intro h
      rw [h] at h1
      exact Bool.noConfusion h1
    simp only [Bool.not_false, Bool.true_and, Bool.not_eq_false']
    rw [ordering_beq_iff, bytesCompare_gt_iff]
    constructor
    · exact Or.inr
    · rintro (h | h)
      · exact absurd h hne
      · exact h
  · have hemp : n.End = [] := List.isEmpty_iff.mp h1
    simp only [Bool.not_true, Bool.false_and]
    constructor
    · intro _
      exact Or.inl hemp
    · intro _
      trivial

/-- Every stored shard overlapping the inserted shard is collected in the
`overlaps` run (so it gets deleted), provided the tree satisfies the
invariant and the inserted shard has a well-formed range. -/
theorem overlap_mem_overlapsRun {t : List Shard} {shard : Shard}
    (hsor : TreeSorted t) (hno : TreeNoOverlap t) (hwf : TreeWF t)
    {s : Shard} (hs : s ∈ t) (hov : Overlap s shard) :
    s ∈ overlapsRun t shard := by
  have hsorP : t.Pairwise (fun a b : Shard => keyLt b.start a.start) := hsor
  have hnoP : t.Pairwise (fun a b : Shard => ¬ Overlap a b) := hno
  have hnosym : Symmetric (fun a b : Shard => ¬ Overlap a b) :=
    fun _ _ h h' => h h'.symm
  -- step 1: the collected run starts no later than s
  have hres : ¬ keyLt s.start (updateResultStart t shard) := by
    unfold updateResultStart
    rcases hf : treeFind t shard.start with _ | r
    · intro hlt
      have hcont : containsP s shard.start := by
        refine ⟨keyLt_asymm hlt, ?_⟩
        exact hov.1
      rw [treeFind_complete hsor hno hwf hs hcont] at hf
      exact Option.noConfusion hf
    · intro hlt
      obtain ⟨hrt, hrc⟩ := treeFind_sound hf
      have hsr : s ≠ r := by
        rintro rfl
        exact keyLt_irrefl _ hlt
      have hovr : Overlap s r := by
        refine ⟨?_, ?_⟩
        · rcases hov.1 with h | h
          · exact Or.inl h
          · exact Or.inr (keyLt_of_not_lt_of_lt hrc.1 h)
        · rcases hwf r hrt with h | h
          · exact Or.inl h
          · exact Or.inr (keyLt_trans hlt h)
      exact (hnoP.forall hnosym hs hrt hsr) hovr
  -- step 2: s is in the filtered prefix
  have hfil : s ∈ t.filter
      (fun x => !(bytesCompare x.start (updateResultStart t shard) == .lt)) := by
    rw [List.mem_filter]
    refine ⟨hs, ?_⟩
    rw [Bool.not_eq_true', ordering_beq_false_iff]
    exact hres
  -- step 3: s is in the ascending reversal
  have hrev : s ∈ (t.filter
      (fun x => !(bytesCompare x.start (updateResultStart t shard) == .lt))).reverse :=
    List.mem_reverse.mpr hfil
  -- step 4: the reversal is sorted by ascending start
  have hasc : ((t.filter
      (fun x => !(bytesCompare x.start (updateResultStart t shard) == .lt))).reverse).Pairwise
      (fun a b : Shard => keyLt a.start b.start) := by
    rw [List.pairwise_reverse]
    exact hsorP.sublist (List.filter_sublist t)
  -- step 5: the stop predicate has not fired at s
  have hps : (!updateStop shard s) = true := by
    rw [Bool.not_eq_true', updateStop_eq_false_iff]
    exact hov.2
  -- step 6: conclude membership in the takeWhile prefix
  unfold overlapsRun
  refine mem_takeWhile_of_mono ?_ hasc s hrev hps
  intro a b hab hpb
  rw [Bool.not_eq_true', updateStop_eq_false_iff] at hpb ⊢
  rcases hpb with h | h
  · exact Or.inl h
  · exact Or.inr (keyLt_trans hab h)

/-- The elements of the `overlaps` run are stored shards. -/
theorem overlapsRun_subset {t : List Shard} {shard : Shard} :
    ∀ s ∈ overlapsRun t shard, s ∈ t := by
  intro s hs
  unfold overlapsRun at hs
  have h1 := List.mem_takeWhile_imp hs
  have h2 : s ∈ (t.filter
      (fun x => !(bytesCompare x.start (updateResultStart t shard) == .lt))).reverse :=
    (List.takeWhile_sublist _).mem hs
  have h3 := List.mem_reverse.mp h2
  exact (List.filter_sublist t).mem h3

/-- `treeUpdate1` preserves the ShardTree invariant for well-formed input
shards. -/
theorem treeUpdate1_inv {t : List Shard} {shard : Shard}
    (hinv : TreeInv t) (hwfn : WellFormedShard shard) :
    TreeInv (treeUpdate1 t shard) := by
  obtain ⟨hsor, hno, hwf⟩ := hinv
  unfold treeUpdate1
  by_cases hskip : (shard.state == ShardState.Destroyed || shard.state == ShardState.Destroying) = true
  · rw [if_pos hskip]
    exact ⟨hsor, hno, hwf⟩
  · rw [if_neg hskip]
    set survivors := t.filter
      (fun s => !((overlapsRun t shard).any (fun o => bytesCompare o.start s.start == .eq)))
      with hsurv
    have hsub : List.Sublist survivors t := List.filter_sublist t
    have hsorS : TreeSorted survivors := List.Pairwise.sublist hsub hsor
    have hnoS : TreeNoOverlap survivors := List.Pairwise.sublist hsub hno
    have hnoQ : ∀ s ∈ survivors, ¬ Overlap shard s ∧ ¬ Overlap s shard := by
      intro s hsv
      rw [hsurv, List.mem_filter] at hsv
      have hnot : ¬ Overlap s shard := by
        intro hov
        have hrun := overlap_mem_overlapsRun hsor hno hwf hsv.1 hov
        have hany := hsv.2
        rw [Bool.not_eq_true', List.any_eq_false] at hany
        have hthis := hany s hrun
        exact hthis ((ordering_beq_iff _ _).mpr (bytesCompare_self s.start))
      exact ⟨fun h => hnot h.symm, hnot⟩
    refine ⟨insertShard_sorted hsorS, ?_, ?_⟩
    · exact pairwise_insertShard hnoS (fun s hsv => ⟨(hnoQ s hsv).1, (hnoQ s hsv).2⟩)
    · intro x hx
      rcases mem_insertShard hx with rfl | hx
      · exact hwfn
      · exact hwf x (hsub.mem hx)

theorem treeRemove_none {t : List Shard} {shard : Shard}
    (hf : treeFind t shard.start = none) : treeRemove t shard = (t, false) := by
  unfold treeRemove
  rw [hf]

theorem treeRemove_some {t : List Shard} {shard r : Shard}
    (hf : treeFind t shard.start = some r) :
    treeRemove t shard =
      if r.id == shard.id then
        (t.filter (fun s => !(bytesCompare s.start r.start == .eq)), true)
      else (t, false) := by
  unfold treeRemove
  rw [hf]

/-- `treeRemove` preserves the ShardTree invariant (both result branches are
sublists of the input). -/
theorem treeRemove_inv {t : List Shard} {shard : Shard} (hinv : TreeInv t) :
    TreeInv (treeRemove t shard).1 := by
  obtain ⟨hsor, hno, hwf⟩ := hinv
  rcases hf : treeFind t shard.start with _ | r
  · rw [treeRemove_none hf]
    exact ⟨hsor, hno, hwf⟩
  · rw [treeRemove_some hf]
    by_cases hid : (r.id == shard.id) = true
    · rw [if_pos hid]
      have hsub : List.Sublist
          (t.filter (fun s => !(bytesCompare s.start r.start == .eq))) t :=
        List.filter_sublist t
      exact ⟨List.Pairwise.sublist hsub hsor, List.Pairwise.sublist hsub hno,
        fun s hs => hwf s (hsub.mem hs)⟩
    · rw [if_neg hid]
      exact ⟨hsor, hno, hwf⟩

/-- `treeUpdate` (the variadic `Update`) preserves the invariant. -/
theorem treeUpdate_inv {shards : List Shard} :
    ∀ {t : List Shard}, TreeInv t → (∀ sh ∈ shards, WellFormedShard sh) →
      TreeInv (treeUpdate t shards) := by
  unfold treeUpdate
  induction shards with
  | nil =>
    intro t h _
    exact h
  | cons sh rest ih =>
    intro t h hwf
    rw [List.foldl_cons]
    exact ih (treeUpdate1_inv h (hwf sh (List.mem_cons_self _ _)))
      (fun x hx => hwf x (List.mem_cons_of_mem _ hx))

/-! ### Search and NextShard under the invariant -/

/-- `treeSearch` under the invariant: it returns the unique stored shard
containing the key, or the empty shard when no stored shard contains it. -/
theorem treeSearch_spec {t : List Shard} (hinv : TreeInv t) (key : Key) :
    (∃ s, s ∈ t ∧ containsP s key ∧ treeSearch t key = s ∧
        ∀ s' ∈ t, containsP s' key → s' = s) ∨
    (treeSearch t key = emptyShard ∧ ∀ s ∈ t, ¬ containsP s key) := by
  obtain ⟨hsor, hno, hwf⟩ := hinv
  rcases hf : treeFind t key with _ | r
  · right
    constructor
    · unfold treeSearch
      rw [hf]
      rfl
    · intro s hs hc
      rw [treeFind_complete hsor hno hwf hs hc] at hf
      exact Option.noConfusion hf
  · left
    obtain ⟨hrt, hrc⟩ := treeFind_sound hf
    refine ⟨r, hrt, hrc, ?_, ?_⟩
    · unfold treeSearch
      rw [hf]
      rfl
    · intro s' hs' hc'
      have := treeFind_complete hsor hno hwf hs' hc'
      rw [hf] at this
      exact (Option.some.injEq _ _).mp this.symm

theorem find?_first {α : Type} {p : α → Bool} {R : α → α → Prop} :
    ∀ {l : List α} {r s : α}, l.Pairwise R → l.find? p = some r → s ∈ l →
      p s = true → s = r ∨ R r s := by
  intro l
  induction l with
  | nil =>
    intro r s _ hr
    exact absurd hr (by simp)
  | cons x xs ih =>
    intro r s hl hr hs hps
    rw [List.pairwise_cons] at hl
    by_cases hpx : p x = true
    · rw [List.find?_cons_of_pos _ hpx] at hr
      have hxr : x = r := by injection hr
      subst hxr
      rcases List.mem_cons.mp hs with rfl | hs
      · exact Or.inl rfl
      · exact Or.inr (hl.1 s hs)
    · rw [List.find?_cons_of_neg _ (by simpa using hpx)] at hr
      rcases List.mem_cons.mp hs with rfl | hs
      · exact absurd hps hpx
      · exact ih hl.2 hr hs hps

/-- `treeNextShard` on a sorted tree returns the stored shard with the
smallest start key strictly greater than the probe, if any. -/
theorem treeNextShard_spec {t : List Shard} (hsor : TreeSorted t) (start : Key) :
    (∀ r, treeNextShard t start = some r →
      r ∈ t ∧ keyLt start r.start ∧
        ∀ s ∈ t, keyLt start s.start → ¬ keyLt s.start r.start) ∧
    (treeNextShard t start = none → ∀ s ∈ t, ¬ keyLt start s.start) := by
  have hsorP : t.Pairwise (fun a b : Shard => keyLt b.start a.start) := hsor
  have hasc : ((t.filter (fun s => !(bytesCompare s.start start == .lt))).reverse).Pairwise
      (fun a b : Shard => keyLt a.start b.start) := by
    rw [List.pairwise_reverse]
    exact hsorP.sublist (List.filter_sublist t)
  have hmemA : ∀ s ∈ t, keyLt start s.start →
      s ∈ (t.filter (fun s => !(bytesCompare s.start start == .lt))).reverse := by
    intro s hs hlt
    rw [List.mem_reverse, List.mem_filter]
    refine ⟨hs, ?_⟩
    rw [Bool.not_eq_true', ordering_beq_false_iff]
    intro h
    exact keyLt_irrefl start (keyLt_trans hlt h)
  constructor
  · intro r hr
    unfold treeNextShard at hr
    have hpr := List.find?_some hr
    rw [ordering_beq_iff, bytesCompare_gt_iff] at hpr
    have hrA := List.mem_of_find?_eq_some hr
    have hrt : r ∈ t := (List.filter_sublist t).mem (List.mem_reverse.mp hrA)
    refine ⟨hrt, hpr, ?_⟩
    intro s hs hlt
    have hsA := hmemA s hs hlt
    have hps : (bytesCompare s.start start == Ordering.gt) = true := by
      rw [ordering_beq_iff, bytesCompare_gt_iff]
      exact hlt
    rcases find?_first hasc hr hsA hps with rfl | h
    · exact keyLt_irrefl s.start
    · exact keyLt_asymm h
  · intro hr s hs hlt
    unfold treeNextShard at hr
    rw [List.find?_eq_none] at hr
    have := hr s (hmemA s hs hlt)
    rw [ordering_beq_iff, bytesCompare_gt_iff] at this
    exact this hlt

/-! ### Operation sequences from the empty tree -/

/-- A public mutation of a `ShardTree`. -/
inductive TreeOp
  | update (shards : List Shard)
  | remove (shard : Shard)
deriving DecidableEq, Repr

/-- Apply one operation. -/
def applyTreeOp (t : List Shard) : TreeOp → List Shard
  | .update shards => treeUpdate t shards
  | .remove shard => (treeRemove t shard).1

/-- Run a sequence of operations from the empty tree. -/
def runTreeOps (ops : List TreeOp) : List Shard :=
  ops.foldl applyTreeOp []

/-- Well-formedness of an operation's inputs: every inserted shard has a
non-inverted range. -/
def TreeOpWF : TreeOp → Prop
  | .update shards => ∀ sh ∈ shards, WellFormedShard sh
  | .remove _ => True

instance : DecidablePred TreeOpWF := fun op =>
  match op with
  | .update shards => inferInstanceAs (Decidable (∀ sh ∈ shards, WellFormedShard sh))
  | .remove _ => inferInstanceAs (Decidable True)

theorem treeInv_empty : TreeInv [] :=
  ⟨List.Pairwise.nil, List.Pairwise.nil, fun s hs => absurd hs (List.not_mem_nil s)⟩

theorem applyTreeOp_inv {t : List Shard} {op : TreeOp}
    (hinv : TreeInv t) (hwf : TreeOpWF op) : TreeInv (applyTreeOp t op) := by
  cases op with
  | update shards => exact treeUpdate_inv hinv hwf
  | remove shard => exact treeRemove_inv hinv

theorem treeInv_foldl {ops : List TreeOp} :
    ∀ {t : List Shard}, TreeInv t → (∀ op ∈ ops, TreeOpWF op) →
      TreeInv (ops.foldl applyTreeOp t) := by
  induction ops with
  | nil =>
    intro t h _
    exact h
  | cons op rest ih =>
    intro t h hwf
    rw [List.foldl_cons]
    exact ih (applyTreeOp_inv h (hwf op (List.mem_cons_self _ _)))
      (fun x hx => hwf x (List.mem_cons_of_mem _ hx))

theorem treeInv_runTreeOps {ops : List TreeOp}
    (hwf : ∀ op ∈ ops, TreeOpWF op) : TreeInv (runTreeOps ops) :=
  treeInv_foldl treeInv_empty hwf

theorem treeUpdate1_skip {t : List Shard} {sh : Shard}
    (h : sh.state = ShardState.Destroying ∨ sh.state = ShardState.Destroyed) :
    treeUpdate1 t sh = t := by
  unfold treeUpdate1
  rcases h with h | h <;> rw [h] <;> rfl

/-! ## Requests and batches (pb/rpcpb) -/

/-- `rpcpb.CmdType`. -/
inductive CmdType
  | Write
  | Read
  | Admin
  | Txn
deriving DecidableEq, Repr, Inhabited

/-- `rpcpb.AdminCmdType` values, as the numeric custom-type codes used on
the wire (`AdminConfigChange = 0`, `AdminCompactLog = 1`,
`AdminTransferLeader = 2`, `AdminBatchSplit = 5`, `AdminUpdateMetadata = 6`,
`AdminUpdateLabels = 7`). -/
def AdminConfigChange : Nat := 0

def AdminCompactLog : Nat := 1

def AdminTransferLeader : Nat := 2

def AdminBatchSplit : Nat := 5

def AdminUpdateMetadata : Nat := 6

def AdminUpdateLabels : Nat := 7

/-- `rpcpb.Request` (the fields read by the embedded code; `stopAt` is the
Unix-seconds deadline consulted by the proxy's retry loop). -/
structure Request where
  id : List Nat
  group : Nat
  type : CmdType
  customType : Nat
  key : Key
  cmd : List Nat
  toShard : Nat
  ignoreEpochCheck : Bool
  epoch : ShardEpoch
  stopAt : Int
deriving DecidableEq, Repr, Inhabited

/-- `rpcpb.RequestBatchHeader { id, shardID, replica }`. -/
structure RequestBatchHeader where
  id : List Nat
  shardID : Nat
  replica : Replica
deriving DecidableEq, Repr, Inhabited

/-- `rpcpb.RequestBatch`. -/
structure RequestBatch where
  header : RequestBatchHeader
  requests : List Request
deriving DecidableEq, Repr, Inhabited

/-- Modelled from the spec: the generated pb helper
`RequestBatchHeader.IsEmpty` is not among the sources; a header is empty
when every field holds its zero value (the tests construct non-empty
headers by setting the `ID`). -/
def RequestBatchHeader.IsEmpty (h : RequestBatchHeader) : Bool :=
  h.id.isEmpty && (h.shardID == 0) && (h.replica == default)

/-- Modelled from the spec: the generated pb helper `RequestBatch.IsAdmin`
is not among the sources; a batch is an admin batch when its first request
has type `Admin` (admin requests never batch, so the batch is a singleton). -/
def RequestBatch.IsAdmin (b : RequestBatch) : Bool :=
  match b.requests with
  | [] => false
  | r :: _ => r.type == CmdType.Admin

/-- Modelled from the spec: the generated pb helper
`RequestBatch.GetAdminCmdType` is not among the sources; it is the first
request's numeric custom type (Go casts `Requests[0].CustomType` to
`AdminCmdType`). -/
def RequestBatch.GetAdminCmdType (b : RequestBatch) : Nat :=
  match b.requests with
  | [] => 0
  | r :: _ => r.customType

/-! ## Error model (pb/errorpb) -/

/-- `errorpb.NotLeader { shardID, leader }`. -/
structure NotLeaderErr where
  shardID : Nat
  leader : Replica
deriving DecidableEq, Repr, Inhabited

/-- `errorpb.ShardNotFound { shardID }`. -/
structure ShardNotFoundErr where
  shardID : Nat
deriving DecidableEq, Repr, Inhabited

/-- `errorpb.StaleEpoch { newShards }`. -/
structure StaleEpochErr where
  newShards : List Shard
deriving DecidableEq, Repr, Inhabited

/-- `errorpb.Error`: a message plus at most one typed cause (the typed
causes the embedded code reads; the remaining wire causes are represented
by presence flags). -/
structure ErrorPB where
  message : String
  notLeader : Option NotLeaderErr
  shardNotFound : Option ShardNotFoundErr
  staleEpoch : Option StaleEpochErr
  shardUnavailable : Bool
  storeNotMatch : Bool
  serverIsBusy : Bool
deriving DecidableEq, Repr, Inhabited

/-- Modelled from the spec: `errorpb.HasError` is not among the sources; a
response carries an error when its error value is not the zero value. -/
def ErrorPB.HasError (e : ErrorPB) : Bool :=
  !(e == default)

/-- Modelled from the spec: `errorpb.Retryable` is not among the sources;
the spec's retryable set is `NotLeader`, `StaleEpoch`, `ServerIsBusy`
(transient transport failures travel on the separate failure-callback
path). -/
def ErrorPB.Retryable (e : ErrorPB) : Bool :=
  e.notLeader.isSome || e.staleEpoch.isSome || e.serverIsBusy

/-! ## checkEpoch and validateShard (raftstore/store.go) -/

/-- `checkEpoch(shard, req)` from raftstore/store.go: decide which epoch
components to check from the batch type, pass trivially when none is
checked, fail on an empty header, then test the first request's
`IgnoreEpochCheck` flag and epoch staleness. -/
def checkEpoch (shard : Shard) (req : RequestBatch) : Bool :=
  let checks : Bool × Bool :=  -- (checkVer, checkConfVer)
    if req.IsAdmin then
      if req.GetAdminCmdType == AdminBatchSplit then (true, false)
      else if req.GetAdminCmdType == AdminConfigChange then (false, true)
      else if req.GetAdminCmdType == AdminTransferLeader then (true, true)
      else (false, false)
    else (true, false)
  if !checks.2 && !checks.1 then true
  else if req.header.IsEmpty then false
  else
    -- only check first request, because requests inside a batch have the
    -- same epoch; the source indexes `req.Requests[0]` directly, which is
    -- reachable here only for non-empty request lists
    match req.requests with
    | [] => false
    | first :: _ =>
      first.ignoreEpochCheck ||
        !((checks.2 && decide (first.epoch.configVer < shard.epoch.configVer)) ||
          (checks.1 && decide (first.epoch.generation < shard.epoch.generation)))

/-- The raft-level state of one replica object that `validateShard` reads;
`isLeader` and `getLeaderReplicaID` reflect the replica's raft node (not
among the sources) and are carried as plain fields. -/
structure ReplicaObj where
  replicaID : Nat
  isLeader : Bool
  leaderReplicaID : Nat
  shard : Shard
deriving DecidableEq, Repr, Inhabited

/-- The slice of `store` state read by `validateShard` (raftstore/store.go):
the replica map, the replica records used for `NotLeader` hints, and the
per-group key-range trees. -/
structure StoreState where
  replicas : List (Nat × ReplicaObj)
  replicaRecords : List (Nat × Replica)
  keyRanges : List (Nat × List Shard)
deriving DecidableEq, Repr, Inhabited

/-- `store.searchShard` (raftstore/store.go). -/
def storeSearchShard (s : StoreState) (group : Nat) (key : Key) : Shard :=
  match assocFind s.keyRanges group with
  | some t => treeSearch t key
  | none => emptyShard

/-- `store.nextShard` (raftstore/store.go). -/
def storeNextShard (s : StoreState) (shard : Shard) : Option Shard :=
  match assocFind s.keyRanges shard.group with
  | some t => treeNextShard t shard.start
  | none => none

/-- `store.validateShard` (raftstore/store.go).  Returns `some err` exactly
when the Go function returns `(err, true)`.  The error messages follow the
source's wording. -/
def validateShard (s : StoreState) (req : RequestBatch) : Option ErrorPB :=
  match assocFind s.replicas req.header.shardID with
  | none =>
    some { (default : ErrorPB) with
      message := "shard not found",
      shardNotFound := some ⟨req.header.shardID⟩ }
  | some pr =>
    if !pr.isLeader then
      some { (default : ErrorPB) with
        message := "not leader",
        notLeader := some ⟨req.header.shardID,
          (assocFind s.replicaRecords pr.leaderReplicaID).getD default⟩ }
    else if !(pr.replicaID == req.header.replica.id) then
      some { (default : ErrorPB) with message := "mismatch replica id" }
    else if !(checkEpoch pr.shard req) then
      some { (default : ErrorPB) with
        message := "stale epoch",
        staleEpoch := some ⟨(storeNextShard s pr.shard).toList⟩ }
    else none

/-! ## Router (raftstore/router.go)

`defaultRouter.mu` holds the routing cache.  Queries that can `panic` or
`Fatal` in Go return `Option` (`none` = process failure); queries that
mutate the per-shard round-robin counter also return the updated state.
The stats maps are carried opaquely (no claim reads their contents). -/

/-- `rpcpb.ReplicaSelectPolicy`. -/
inductive ReplicaSelectPolicy
  | SelectLeader
  | SelectRandom
  | SelectLeaseHolder
deriving DecidableEq, Repr, Inhabited

/-- The `mu` block of `defaultRouter`. -/
structure RouterMu where
  keyRanges : List (Nat × List Shard)
  leaders : List (Nat × Store)
  stores : List (Nat × Store)
  shards : List (Nat × Shard)
  missingLeaderStoreShards : List (Nat × Replica)
  opts : List (Nat × Nat)
deriving DecidableEq, Repr, Inhabited

/-- `defaultRouter.searchShardLocked`. -/
def searchShardLocked (mu : RouterMu) (group : Nat) (key : Key) : Shard :=
  match assocFind mu.keyRanges group with
  | some t => treeSearch t key
  | none => emptyShard

/-- `defaultRouter.getLeaderReplicaStoreLocked`: empty store when the
leader mapping is missing. -/
def getLeaderReplicaStoreLocked (mu : RouterMu) (shardID : Nat) : Store :=
  (assocFind mu.leaders shardID).getD emptyStore

/-- `defaultRouter.mustGetStoreLocked`: `none` models the Go
`logger.Fatal("store must exist")`. -/
def mustGetStoreLocked (mu : RouterMu) (id : Nat) : Option Store :=
  assocFind mu.stores id

/-- `defaultRouter.selectStoreLocked`: advance the per-shard round-robin
counter (a missing counter reads as the zero value) and index the replica
list by the new value modulo its length; `none` models the Go runtime
panic of `% 0` on an empty replica list. -/
def selectStoreLocked (mu : RouterMu) (shard : Shard) : Option (Nat × RouterMu) :=
  match shard.replicas with
  | [] => none
  | r0 :: rest =>
    let ops := (assocFind mu.opts shard.id).getD 0
    let next := ops + 1
    let storeID := ((r0 :: rest).getD (next % (r0 :: rest).length) default).storeID
    some (storeID, { mu with opts := assocSet mu.opts shard.id next })

/-- `defaultRouter.selectReplicaStoreByPolicyLocked`: `SelectLeaseHolder`
is `panic("not yet implemented")` in the source, modelled as `none`. -/
def selectReplicaStoreByPolicyLocked (mu : RouterMu) (shard : Shard)
    (policy : ReplicaSelectPolicy) : Option (Store × RouterMu) :=
  match policy with
  | .SelectLeader => some (getLeaderReplicaStoreLocked mu shard.id, mu)
  | .SelectRandom =>
    match selectStoreLocked mu shard with
    | none => none
    | some (sid, mu') =>
      match mustGetStoreLocked mu' sid with
      | none => none
      | some st => some (st, mu')
  | .SelectLeaseHolder => none

/-- `defaultRouter.SelectShardWithPolicy`. -/
def routerSelectShardWithPolicy (mu : RouterMu) (group : Nat) (key : Key)
    (policy : ReplicaSelectPolicy) : Option (Shard × Store × RouterMu) :=
  let shard := searchShardLocked mu group key
  match selectReplicaStoreByPolicyLocked mu shard policy with
  | none => none
  | some (st, mu') => some (shard, st, mu')

/-- `defaultRouter.SelectShard`: `SelectShardWithPolicy` with the leader
policy, projecting the store's client address. -/
def routerSelectShard (mu : RouterMu) (group : Nat) (key : Key) :
    Option (Shard × String × RouterMu) :=
  match routerSelectShardWithPolicy mu group key .SelectLeader with
  | none => none
  | some (shard, st, mu') => some (shard, st.clientAddress, mu')

/-- `defaultRouter.SelectReplicaStoreWithPolicy`: missing shard returns the
empty store. -/
def routerSelectReplicaStoreWithPolicy (mu : RouterMu) (shardID : Nat)
    (policy : ReplicaSelectPolicy) : Option (Store × RouterMu) :=
  match assocFind mu.shards shardID with
  | none => some (emptyStore, mu)
  | some shard => selectReplicaStoreByPolicyLocked mu shard policy

/-- `defaultRouter.GetShard`: a Go map read, yielding the zero shard when
absent. -/
def routerGetShard (mu : RouterMu) (id : Nat) : Shard :=
  (assocFind mu.shards id).getD emptyShard

/-- `defaultRouter.LeaderReplicaStore`. -/
def routerLeaderReplicaStore (mu : RouterMu) (shardID : Nat) : Store :=
  getLeaderReplicaStoreLocked mu shardID

/-- `defaultRouter.RandomReplicaStore`: missing shard returns the empty
store; otherwise round-robin selection as in `SelectRandom`. -/
def routerRandomReplicaStore (mu : RouterMu) (shardID : Nat) :
    Option (Store × RouterMu) :=
  match assocFind mu.shards shardID with
  | none => some (emptyStore, mu)
  | some shard =>
    match selectStoreLocked mu shard with
    | none => none
    | some (sid, mu') =>
      match mustGetStoreLocked mu' sid with
      | none => none
      | some st => some (st, mu')

/-- The replica-scanning loop of `defaultRouter.updateLeaderLocked`: find
the first replica with the leader's ID; bind the leader store when the
store is known, otherwise park the replica in the deferred
missing-leader map and stop. -/
def updateLeaderLoop (mu : RouterMu) (shardID : Nat) (leaderReplicaID : Nat) :
    List Replica → RouterMu
  | [] => mu
  | p :: rest =>
    if p.id == leaderReplicaID then
      match assocFind mu.stores p.storeID with
      | some s =>
        { mu with
          missingLeaderStoreShards := assocErase mu.missingLeaderStoreShards shardID,
          leaders := assocSet mu.leaders shardID s }
      | none =>
        { mu with
          missingLeaderStoreShards := assocSet mu.missingLeaderStoreShards shardID p }
    else updateLeaderLoop mu shardID leaderReplicaID rest

/-- `defaultRouter.updateLeaderLocked`: `none` models the Go
`logger.Fatal("shard must exist")` in `mustGetShardLocked`. -/
def updateLeaderLocked (mu : RouterMu) (shardID leaderReplicaID : Nat) :
    Option RouterMu :=
  match assocFind mu.shards shardID with
  | none => none
  | some shard => some (updateLeaderLoop mu shardID leaderReplicaID shard.replicas)

/-- `defaultRouter.UpdateLeader`: a zero leader-replica ID returns without
touching any state. -/
def routerUpdateLeader (mu : RouterMu) (shardID leaderReplicaID : Nat) :
    Option RouterMu :=
  if leaderReplicaID == 0 then some mu
  else updateLeaderLocked mu shardID leaderReplicaID

/-! ## Shards proxy response classification (raftstore/proxy.go)

`shardsProxy.done` and `shardsProxy.retryDispatch` classify a response and
either invoke a callback or schedule a retry on the timing wheel.  The
embedding returns the emitted effect as data: the router leader update
performed by `adjustRoute` and the terminal action.  `rpc.Response` is
embedded with the fields the classification reads. -/

/-- `rpc.Response` (the fields read by `shardsProxy.done`). -/
structure Response where
  id : List Nat
  type : CmdType
  customType : Nat
  value : List Nat
  pid : Int
  error : ErrorPB
deriving DecidableEq, Repr, Inhabited

/-- The error handed to the failure callback: the response error's string
(`errors.New(rsp.Error.String())`), a plain cause string, or a cause
joined with `ErrTimeout` (`multierr.Append`). -/
inductive FailureErr
  | respError (e : ErrorPB)
  | cause (msg : String)
  | causeTimeout (msg : String)
deriving DecidableEq, Repr, Inhabited

/-- The terminal effect of one response classification. -/
inductive ProxyOutcome
  | success (rsp : Response)
  | failure (requestID : List Nat) (err : FailureErr)
  | schedule (interval : Nat) (req : Request)
deriving DecidableEq, Repr, Inhabited

/-- The effects of `shardsProxy.done`: the leader update pushed to the
router by `adjustRoute` (if any), then the terminal action. -/
structure DoneResult where
  leaderUpdate : Option (Nat × Nat)
  outcome : ProxyOutcome
deriving DecidableEq, Repr, Inhabited

/-- A `RetryController`: `Retry(requestID)` returns the stored request and
whether to continue. -/
def RetryController : Type := List Nat → Request × Bool

/-- Stand-in for Go `Error.String()` on the embedded error value. -/
def errorString (e : ErrorPB) : String := e.message

/-- `shardsProxy.adjustRoute`: on `NotLeader`, update the router's leader
mapping with the hinted leader. -/
def adjustRoute (e : ErrorPB) : Option (Nat × Nat) :=
  match e.notLeader with
  | some nl => some (nl.shardID, nl.leader.id)
  | none => none

/-- `shardsProxy.retryDispatch`: without a controller, fail; if the
controller declines, fail; past the request's `stopAt` deadline
(`time.Now().Unix() >= req.StopAt`, `now` passed explicitly), fail with the
timeout-joined error; otherwise schedule the retry after `retryInterval`
on the timing wheel. -/
def retryDispatch (controller : Option RetryController) (retryInterval : Nat)
    (now : Int) (requestID : List Nat) (cause : String) : ProxyOutcome :=
  match controller with
  | none => .failure requestID (.cause cause)
  | some c =>
    let rc := c requestID
    if !rc.2 then .failure requestID (.cause cause)
    else if rc.1.stopAt ≤ now then .failure requestID (.causeTimeout cause)
    else .schedule retryInterval rc.1

/-- `shardsProxy.done`: no error → success callback; non-retryable error →
failure callback with the response error; retryable error → route repair
then `retryDispatch`. -/
def proxyDone (controller : Option RetryController) (retryInterval : Nat)
    (now : Int) (rsp : Response) : DoneResult :=
  if !rsp.error.HasError then ⟨none, .success rsp⟩
  else if !rsp.error.Retryable then ⟨none, .failure rsp.id (.respError rsp.error)⟩
  else
    ⟨adjustRoute rsp.error,
      retryDispatch controller retryInterval now rsp.id (errorString rsp.error)⟩

/-! ## Future (client/future.go, src/unnamed/part_000)

The `Future` couples a one-slot buffered channel with a closed flag kept
under a mutex.  The embedding keeps the channel occupancy and closed state
as data; operations that can panic return `Option` (`none` = panic). -/

/-- The state of one `Future`: the bound response fields, the buffered
signal channel (`chanTokens ≤ 1`, `chanClosed`), and the mutex-protected
`closed` flag. -/
structure FutureState where
  value : List Nat
  err : Option String
  txnResponse : List Nat
  chanTokens : Nat
  chanClosed : Bool
  closed : Bool
deriving DecidableEq, Repr, Inhabited

/-- `newFuture`: empty slots, an open one-slot channel, not closed. -/
def newFuture : FutureState :=
  { value := [], err := none, txnResponse := [], chanTokens := 0,
    chanClosed := false, closed := false }

/-- `Future.done`: under the mutex, a closed future ignores the call;
otherwise bind the response fields and send the completion token — the
non-blocking send panics (`"BUG"`) when the one-slot buffer is already
full, and a send on a closed channel would also panic. -/
def futureDone (f : FutureState) (value : List Nat) (txn : Option (List Nat))
    (err : Option String) : Option FutureState :=
  if f.closed then some f
  else
    let f1 := { f with
      txnResponse := txn.getD f.txnResponse, value := value, err := err }
    if f1.chanClosed then none
    else if f1.chanTokens < 1 then some { f1 with chanTokens := f1.chanTokens + 1 }
    else none

/-- `Future.Close`: close the channel under the mutex and set the flag
(closing an already-closed channel would panic). -/
def futureClose (f : FutureState) : Option FutureState :=
  if f.chanClosed then none
  else some { f with chanClosed := true, closed := true }

/-- What `Future.Get` returns: the context error, or the bound
value/error pair. -/
inductive GetOutcome
  | ctxErr
  | result (value : List Nat) (err : Option String)
deriving DecidableEq, Repr, Inhabited

/-- `Future.Get`: a `select` on the caller context's done channel and the
completion channel.  `ctxDone` says whether the context has fired;
`pickCtx` resolves the nondeterministic choice when both are ready;
`none` models blocking forever (neither channel ready). -/
def futureGet (f : FutureState) (ctxDone : Bool) (pickCtx : Bool) :
    Option (GetOutcome × FutureState) :=
  let chanReady := decide (0 < f.chanTokens) || f.chanClosed
  if ctxDone && (pickCtx || !chanReady) then some (.ctxErr, f)
  else if chanReady then
    if 0 < f.chanTokens then
      some (.result f.value f.err, { f with chanTokens := f.chanTokens - 1 })
    else some (.result f.value f.err, f)
  else none

/-! ## Config-change checking (raftstore/replica_event_proposal.go)

The checked functions themselves are not among the sources (only their
tests are), so they are modelled from the spec, in the shape the tests
exercise. -/

/-- `metapb.ConfigChangeType`. -/
inductive ConfigChangeType
  | AddNode
  | RemoveNode
  | AddLearnerNode
deriving DecidableEq, Repr, Inhabited

/-- `confChangeKind`. -/
inductive ConfChangeKind
  | simpleKind
  | enterJointKind
  | leaveJointKind
deriving DecidableEq, Repr, Inhabited

/-- `rpcpb.ConfigChangeRequest`. -/
structure ConfigChangeRequest where
  changeType : ConfigChangeType
  replica : Replica
deriving DecidableEq, Repr, Inhabited

/-- The errors produced by `checkConfChange`; `progressRejected` stands for
whatever error the prospective-apply stage on the cloned raft progress
produces. -/
inductive ConfChangeErr
  | invalidRequest
  | removeLeader
  | jointRemoveVoter
  | progressRejected
deriving DecidableEq, Repr, Inhabited

/-- Modelled from the spec (`getConfigChangeKind`, confirmed by
`TestGetConfigChangeKind`): 0 changes → leave-joint, 1 → simple,
≥ 2 → enter-joint. -/
def getConfigChangeKind (changeNum : Nat) : ConfChangeKind :=
  if changeNum == 0 then .leaveJointKind
  else if changeNum == 1 then .simpleKind
  else .enterJointKind

/-- Modelled from the spec (`is_valid_config_change_request`, confirmed by
`TestIsValidConfigChangeRequest`): `RemoveNode` is always valid; `AddNode`
must target a Voter; `AddLearnerNode` must target a Learner. -/
def isValidConfigChangeRequest (ccr : ConfigChangeRequest) : Bool :=
  match ccr.changeType with
  | .RemoveNode => true
  | .AddNode => ccr.replica.role == ReplicaRole.Voter
  | .AddLearnerNode => ccr.replica.role == ReplicaRole.Learner

/-- Modelled from the spec (confirmed by `TestIsRemovingOrDemotingLeader`):
in simple mode, a `RemoveNode` or `AddLearnerNode` aimed at the current
leader removes or demotes it. -/
def isRemovingOrDemotingLeader (kind : ConfChangeKind)
    (ccr : ConfigChangeRequest) (leaderReplicaID : Nat) : Bool :=
  kind == ConfChangeKind.simpleKind &&
    ccr.replica.id == leaderReplicaID &&
    (ccr.changeType == ConfigChangeType.RemoveNode ||
      ccr.changeType == ConfigChangeType.AddLearnerNode)

/-- Modelled from the spec (confirmed by
`TestRemovingVoterDirectlyInJointConsensusCC`): an enter-joint change may
not remove a Voter directly. -/
def removingVoterDirectlyInJointConsensusCC (kind : ConfChangeKind)
    (ccr : ConfigChangeRequest) : Bool :=
  kind == ConfChangeKind.enterJointKind &&
    ccr.changeType == ConfigChangeType.RemoveNode &&
    ccr.replica.role == ReplicaRole.Voter

/-- Modelled from the spec (`checkConfChange`, confirmed by
`TestInvalidConfigChangeRequestIsRejected`): reject syntactically invalid
requests, then leader removal/demotion in simple mode, then direct voter
removal in enter-joint mode; what remains is decided by the
prospective-apply check on the cloned raft progress, abstracted as the
`progressResult` argument. -/
def checkConfChange (progressResult : Option ConfChangeErr)
    (leaderReplicaID : Nat) (reqs : List ConfigChangeRequest) :
    Option ConfChangeErr :=
  let kind := getConfigChangeKind reqs.length
  if reqs.any (fun c => !isValidConfigChangeRequest c) then
    some .invalidRequest
  else if reqs.any (fun c => isRemovingOrDemotingLeader kind c leaderReplicaID) then
    some .removeLeader
  else if reqs.any (fun c => removingVoterDirectlyInJointConsensusCC kind c) then
    some .jointRemoveVoter
  else progressResult

/-! ## Destroying-status bookkeeping
(components/prophet/cluster/cluster_worker.go)

`HandleCreateDestroying` / `HandleReportDestroyed` / `HandleGetDestroying`
mutate the cluster's destroying-status records.  The embedding merges the
in-memory cache and the storage extra record into one map (the code reads
the cache first and falls back to storage; both are written together by
`saveDestroyingStatusLocked`), and treats storage as never failing.  The
shard-metadata writes performed on the `Destroyed` transition are outside
every claim and are represented only by the removed-shards set. -/

/-- `metapb.DestroyingStatus`; `replicas` is the Go map
`replica id → destroyed?`. -/
structure DestroyingStatus where
  state : ShardState
  index : Nat
  replicas : List (Nat × Bool)
  removeData : Bool
deriving DecidableEq, Repr, Inhabited

/-- The cluster state the destroy handlers read and write. -/
structure ClusterState where
  removed : List Nat
  destroying : List (Nat × DestroyingStatus)
deriving DecidableEq, Repr, Inhabited

/-- `rpcpb.CreateDestroyingReq`. -/
structure CreateDestroyingReq where
  id : Nat
  index : Nat
  replicas : List Nat
  removeData : Bool
deriving DecidableEq, Repr, Inhabited

/-- `core.AlreadyRemoved`. -/
def alreadyRemoved (st : ClusterState) (id : Nat) : Bool :=
  st.removed.contains id

/-- `RaftCluster.getDestroyingStatusLocked` (cache merged with storage). -/
def getDestroyingStatus (st : ClusterState) (id : Nat) : Option DestroyingStatus :=
  assocFind st.destroying id

/-- `RaftCluster.saveDestroyingStatusLocked`: on `Destroyed`, the shard is
added to the removed set alongside the status write. -/
def saveDestroyingStatus (st : ClusterState) (id : Nat)
    (status : DestroyingStatus) : ClusterState :=
  if status.state == ShardState.Destroyed then
    { removed := id :: st.removed,
      destroying := assocSet st.destroying id status }
  else
    { st with destroying := assocSet st.destroying id status }

/-- `RaftCluster.HandleCreateDestroying`. -/
def handleCreateDestroying (st : ClusterState) (req : CreateDestroyingReq) :
    ShardState × ClusterState :=
  if alreadyRemoved st req.id then (.Destroyed, st)
  else
    match getDestroyingStatus st req.id with
    | some status => (status.state, st)
    | none =>
      let status : DestroyingStatus :=
        { state := .Destroying, index := req.index,
          replicas := req.replicas.foldl (fun m i => assocSet m i false) [],
          removeData := req.removeData }
      (status.state, saveDestroyingStatus st req.id status)

/-- `RaftCluster.HandleReportDestroyed`; `none` models the Go
`logger.Fatal("BUG: missing destroying status")`. -/
def handleReportDestroyed (st : ClusterState) (id replicaID : Nat) :
    Option (ShardState × ClusterState) :=
  if alreadyRemoved st id then some (.Destroyed, st)
  else
    match getDestroyingStatus st id with
    | none => none
    | some status =>
      if status.state == ShardState.Destroyed then some (.Destroyed, st)
      else
        match assocFind status.replicas replicaID with
        | none => some (status.state, st)
        | some true => some (status.state, st)
        | some false =>
          let reps := assocSet status.replicas replicaID true
          let status' :=
            if reps.all (fun kv => kv.2) then
              { status with state := ShardState.Destroyed, replicas := [] }
            else { status with replicas := reps }
          some (status'.state, saveDestroyingStatus st id status')

/-- `RaftCluster.HandleGetDestroying`. -/
def handleGetDestroying (st : ClusterState) (id : Nat) :
    Option DestroyingStatus :=
  getDestroyingStatus st id

/-! ## Claim C8 -/

/-- C8: for every request batch subject to an epoch check (a read/write
batch, or an admin batch of type `AdminBatchSplit`, `AdminConfigChange`, or
`AdminTransferLeader`), an empty batch header makes `checkEpoch` return
`false` regardless of the requests' epochs and of `IgnoreEpochCheck`; an
admin batch of any other type (for example `AdminCompactLog` or
`AdminUpdateMetadata`) always passes `checkEpoch` without the header or any
epoch being examined. -/
theorem C8_checkEpoch_empty_header_and_unchecked_admin :
    (∀ (shard : Shard) (req : RequestBatch),
      (req.IsAdmin = false ∨
        (req.IsAdmin = true ∧
          (req.GetAdminCmdType = AdminBatchSplit ∨
            req.GetAdminCmdType = AdminConfigChange ∨
            req.GetAdminCmdType = AdminTransferLeader))) →
      req.header.IsEmpty = true → checkEpoch shard req = false) ∧
    (∀ (shard : Shard) (req : RequestBatch),
      req.IsAdmin = true →
      req.GetAdminCmdType ≠ AdminBatchSplit →
      req.GetAdminCmdType ≠ AdminConfigChange →
      req.GetAdminCmdType ≠ AdminTransferLeader →
      checkEpoch shard req = true) := by
  constructor
  · intro shard req hsub hemp
    rcases hsub with h | ⟨h, htype⟩
    · simp [checkEpoch, h, hemp]
    · rcases htype with ht | ht | ht <;>
        simp [checkEpoch, h, ht, hemp, AdminBatchSplit, AdminConfigChange,
          AdminTransferLeader]
  · intro shard req h h5 h0 h2
    simp only [checkEpoch, h, if_true]
    rw [beq_eq_false_iff_ne.mpr h5, beq_eq_false_iff_ne.mpr h0,
      beq_eq_false_iff_ne.mpr h2]
    rfl

/-- A shard fixture for the C8 witness. -/
def c8Shard : Shard :=
  { id := 1, group := 0, start := [], End := [], epoch := ⟨3, 3⟩,
    state := .Running, replicas := [] }

/-- A read batch with an empty header whose request would pass the epoch
test on its own (C8 witness fixture). -/
def c8EmptyHeaderBatch : RequestBatch :=
  { header := default,
    requests := [{ (default : Request) with
      type := .Read, ignoreEpochCheck := true, epoch := ⟨9, 9⟩ }] }

/-- An `AdminCompactLog` batch with an empty header and a stale epoch (C8
witness fixture). -/
def c8CompactBatch : RequestBatch :=
  { header := default,
    requests := [{ (default : Request) with
      type := .Admin, customType := AdminCompactLog, epoch := ⟨0, 0⟩ }] }

/-- Witness for C8 at concrete inputs. -/
theorem C8_checkEpoch_empty_header_and_unchecked_admin_witness :
    checkEpoch c8Shard c8EmptyHeaderBatch = false ∧
    checkEpoch c8Shard c8CompactBatch = true :=
  ⟨C8_checkEpoch_empty_header_and_unchecked_admin.1 c8Shard c8EmptyHeaderBatch
      (Or.inl (by decide)) (by decide),
    C8_checkEpoch_empty_header_and_unchecked_admin.2 c8Shard c8CompactBatch
      (by decide) (by decide) (by decide) (by decide)⟩

/-! ## Claim C1 -/

/-- A read batch with an empty header, `IgnoreEpochCheck` set and an
up-to-date epoch (C1 counterexample fixture). -/
def c1EmptyHeaderBatch : RequestBatch :=
  { header := default,
    requests := [{ (default : Request) with
      type := .Read, ignoreEpochCheck := true, epoch := ⟨3, 3⟩ }] }

/-- A shard fixture for C1 (epoch `(3, 3)`). -/
def c1Shard : Shard :=
  { id := 1, group := 0, start := [], End := [], epoch := ⟨3, 3⟩,
    state := .Running, replicas := [] }

/-- C1 counterexample: the claim says a batch whose first request sets
`IgnoreEpochCheck` passes `checkEpoch`, and that otherwise the check fails
exactly when a checked epoch component is strictly less than the shard's.
A batch with an empty header falsifies both: its first request sets
`IgnoreEpochCheck` and its epoch equals the shard's, yet `checkEpoch`
returns `false`. -/
theorem C1_counterexample :
    (c1Shard.epoch = ⟨3, 3⟩) ∧
    ((c1EmptyHeaderBatch.requests.map (fun r => r.ignoreEpochCheck)) = [true]) ∧
    ((c1EmptyHeaderBatch.requests.map (fun r => r.epoch)) = [⟨3, 3⟩]) ∧
    checkEpoch c1Shard c1EmptyHeaderBatch = false := by
  decide

/-- C1 (amended): for a request batch with a non-empty header and at least
one request, `checkEpoch` is the stated function of its arguments: it
checks only the generation for read/write batches and for
`AdminBatchSplit`, only the config-ver for `AdminConfigChange`, and both
components for `AdminTransferLeader`; a batch whose first request sets
`IgnoreEpochCheck` passes; otherwise the batch fails exactly when a checked
component of its epoch is strictly less than the shard's.  On a stale batch
(with the replica present, leader, and matching), `validateShard` returns a
`StaleEpoch` error carrying the group tree's next shard by start key as a
hint. -/
theorem C1_checkEpoch_components_and_staleEpoch_hint :
    (∀ (shard : Shard) (req : RequestBatch) (first : Request) (rest : List Request),
      req.requests = first :: rest → req.header.IsEmpty = false →
      ((first.type ≠ CmdType.Admin →
        checkEpoch shard req =
          (first.ignoreEpochCheck ||
            !decide (first.epoch.generation < shard.epoch.generation))) ∧
        (first.type = CmdType.Admin → first.customType = AdminBatchSplit →
          checkEpoch shard req =
            (first.ignoreEpochCheck ||
              !decide (first.epoch.generation < shard.epoch.generation))) ∧
        (first.type = CmdType.Admin → first.customType = AdminConfigChange →
          checkEpoch shard req =
            (first.ignoreEpochCheck ||
              !decide (first.epoch.configVer < shard.epoch.configVer))) ∧
        (first.type = CmdType.Admin → first.customType = AdminTransferLeader →
          checkEpoch shard req =
            (first.ignoreEpochCheck ||
              !(decide (first.epoch.configVer < shard.epoch.configVer) ||
                decide (first.epoch.generation < shard.epoch.generation)))))) ∧
    (∀ (s : StoreState) (req : RequestBatch) (pr : ReplicaObj),
      assocFind s.replicas req.header.shardID = some pr →
      pr.isLeader = true →
      pr.replicaID = req.header.replica.id →
      checkEpoch pr.shard req = false →
      validateShard s req = some { (default : ErrorPB) with
        message := "stale epoch",
        staleEpoch := some ⟨(storeNextShard s pr.shard).toList⟩ }) ∧
    (∀ (s : StoreState) (shard : Shard) (t : List Shard),
      assocFind s.keyRanges shard.group = some t → TreeSorted t →
      ∀ r, storeNextShard s shard = some r →
        r ∈ t ∧ keyLt shard.start r.start ∧
          ∀ x ∈ t, keyLt shard.start x.start → ¬ keyLt x.start r.start) := by
  refine ⟨?_, ?_, ?_⟩
  · intro shard req first rest h1 h2
    have hAdm : req.IsAdmin = (first.type == CmdType.Admin) := by
      simp [RequestBatch.IsAdmin, h1]
    have hTyp : req.GetAdminCmdType = first.customType := by
      simp [RequestBatch.GetAdminCmdType, h1]
    refine ⟨?_, ?_, ?_, ?_⟩
    · intro hna
      have hA : req.IsAdmin = false := by
        rw [hAdm]
        exact beq_eq_false_iff_ne.mpr hna
      simp [checkEpoch, hA, h2, h1]
    · intro hat hct
      have hA : req.IsAdmin = true := by
        rw [hAdm, hat]
        rfl
      simp [checkEpoch, hA, hTyp, hct, h2, h1, AdminBatchSplit]
    · intro hat hct
      have hA : req.IsAdmin = true := by
        rw [hAdm, hat]
        rfl
      simp [checkEpoch, hA, hTyp, hct, h2, h1, AdminBatchSplit, AdminConfigChange]
    · intro hat hct
      have hA : req.IsAdmin = true := by
        rw [hAdm, hat]
        rfl
      simp [checkEpoch, hA, hTyp, hct, h2, h1, AdminBatchSplit, AdminConfigChange,
        AdminTransferLeader]
  · intro s req pr hfind hlead hid hce
    simp only [validateShard, hfind]
    rw [hlead, hid, hce]
    simp
  · intro s shard t hfind hsor r hr
    unfold storeNextShard at hr
    rw [hfind] at hr
    exact (treeNextShard_spec hsor shard.start).1 r hr

/-- A stale write request (generation 2, against a shard at generation 3);
C1 witness fixture. -/
def c1StaleReq : Request :=
  { (default : Request) with type := .Write, epoch := ⟨2, 3⟩ }

/-- The shard the validated replica owns (C1 witness fixture). -/
def c1ValShard : Shard :=
  { id := 2, group := 0, start := [], End := [109], epoch := ⟨3, 3⟩,
    state := .Running, replicas := [] }

/-- The next shard by start key in the same group (C1 witness fixture). -/
def c1NextShard : Shard :=
  { id := 3, group := 0, start := [109], End := [], epoch := ⟨3, 3⟩,
    state := .Running, replicas := [] }

/-- The leader replica object hosting `c1ValShard` (C1 witness fixture). -/
def c1Pr : ReplicaObj :=
  { replicaID := 7, isLeader := true, leaderReplicaID := 7, shard := c1ValShard }

/-- A store holding the replica and the group key-range tree (C1 witness
fixture). -/
def c1Store : StoreState :=
  { replicas := [(1, c1Pr)], replicaRecords := [],
    keyRanges := [(0, [c1NextShard, c1ValShard])] }

/-- The stale batch addressed to shard 1 / replica 7 (C1 witness fixture). -/
def c1StaleBatch : RequestBatch :=
  { header := { id := [1], shardID := 1, replica := ⟨7, 0, .Voter⟩ },
    requests := [c1StaleReq] }

/-- Witness for the amended C1 at concrete inputs. -/
theorem C1_checkEpoch_components_and_staleEpoch_hint_witness :
    c1StaleBatch.header.IsEmpty = false ∧
    checkEpoch c1ValShard c1StaleBatch =
      (c1StaleReq.ignoreEpochCheck ||
        !decide (c1StaleReq.epoch.generation < c1ValShard.epoch.generation)) ∧
    validateShard c1Store c1StaleBatch = some { (default : ErrorPB) with
      message := "stale epoch",
      staleEpoch := some ⟨(storeNextShard c1Store c1ValShard).toList⟩ } :=
  ⟨by decide,
    (C1_checkEpoch_components_and_staleEpoch_hint.1 c1ValShard c1StaleBatch
      c1StaleReq [] rfl (by decide)).1 (by decide),
    C1_checkEpoch_components_and_staleEpoch_hint.2.1 c1Store c1StaleBatch c1Pr
      (by decide) (by decide) (by decide) (by decide)⟩

/-! ## Claim C4 -/

/-- C4: the proxy's response classification: no error invokes the success
callback; a non-retryable error invokes the failure callback with the
error; a retryable error first updates the router's leader mapping with
the hinted leader when the error is `NotLeader`, then consults the
`RetryController`: if the controller declines or the request's `stopAt`
deadline has passed, the failure callback fires (with a timeout error in
the deadline case), otherwise the dispatch is rescheduled after the retry
interval on the timing wheel. -/
theorem C4_proxy_response_classification :
    (∀ (ctrl : Option RetryController) (ri : Nat) (now : Int) (rsp : Response),
      rsp.error.HasError = false →
      proxyDone ctrl ri now rsp = ⟨none, .success rsp⟩) ∧
    (∀ (ctrl : Option RetryController) (ri : Nat) (now : Int) (rsp : Response),
      rsp.error.HasError = true → rsp.error.Retryable = false →
      proxyDone ctrl ri now rsp = ⟨none, .failure rsp.id (.respError rsp.error)⟩) ∧
    (∀ (ctrl : Option RetryController) (ri : Nat) (now : Int) (rsp : Response),
      rsp.error.HasError = true → rsp.error.Retryable = true →
      ((proxyDone ctrl ri now rsp).leaderUpdate = adjustRoute rsp.error ∧
        ∀ nl, rsp.error.notLeader = some nl →
          (proxyDone ctrl ri now rsp).leaderUpdate = some (nl.shardID, nl.leader.id))) ∧
    (∀ (c : RetryController) (ri : Nat) (now : Int) (rsp : Response)
        (req : Request) (ok : Bool),
      rsp.error.HasError = true → rsp.error.Retryable = true →
      c rsp.id = (req, ok) →
      ((ok = false →
        (proxyDone (some c) ri now rsp).outcome =
          .failure rsp.id (.cause (errorString rsp.error))) ∧
       (ok = true → req.stopAt ≤ now →
        (proxyDone (some c) ri now rsp).outcome =
          .failure rsp.id (.causeTimeout (errorString rsp.error))) ∧
       (ok = true → now < req.stopAt →
        (proxyDone (some c) ri now rsp).outcome = .schedule ri req))) ∧
    (∀ (ri : Nat) (now : Int) (rsp : Response),
      rsp.error.HasError = true → rsp.error.Retryable = true →
      (proxyDone none ri now rsp).outcome =
        .failure rsp.id (.cause (errorString rsp.error))) := by
  refine ⟨?_, ?_, ?_, ?_, ?_⟩
  · intro ctrl ri now rsp h
    simp [proxyDone, h]
  · intro ctrl ri now rsp h1 h2
    simp [proxyDone, h1, h2]
  · intro ctrl ri now rsp h1 h2
    constructor
    · simp [proxyDone, h1, h2]
    · intro nl hnl
      simp [proxyDone, h1, h2, adjustRoute, hnl]
  · intro c ri now rsp req ok h1 h2 hc
    refine ⟨?_, ?_, ?_⟩
    · intro hok
      subst hok
      simp [proxyDone, h1, h2, retryDispatch, hc]
    · intro hok hdl
      subst hok
      simp [proxyDone, h1, h2, retryDispatch, hc, hdl]
    · intro hok hdl
      subst hok
      simp [proxyDone, h1, h2, retryDispatch, hc, not_le.mpr hdl]
  · intro ri now rsp h1 h2
    simp [proxyDone, h1, h2, retryDispatch]

/-- A retryable `NotLeader` response (C4 witness fixture). -/
def c4NotLeaderResp : Response :=
  { (default : Response) with
    id := [4],
    error := { (default : ErrorPB) with
      message := "not leader",
      notLeader := some ⟨1, ⟨2, 2, .Voter⟩⟩ } }

/-- The retried request stored by the controller (C4 witness fixture). -/
def c4Req : Request :=
  { (default : Request) with id := [4], stopAt := 100 }

/-- A retry controller that always continues with `c4Req` (C4 witness
fixture). -/
def c4Controller : RetryController :=
  fun _ => (c4Req, true)

/-- Witness for C4 at concrete inputs: a retryable `NotLeader` response
below the deadline schedules a retry and pushes the hinted leader. -/
theorem C4_proxy_response_classification_witness :
    (proxyDone (some c4Controller) 1 50 c4NotLeaderResp).leaderUpdate =
      some (1, 2) ∧
    (proxyDone (some c4Controller) 1 50 c4NotLeaderResp).outcome =
      .schedule 1 c4Req :=
  ⟨(C4_proxy_response_classification.2.2.1 (some c4Controller) 1 50
      c4NotLeaderResp (by decide) (by decide)).2 ⟨1, ⟨2, 2, .Voter⟩⟩ (by decide),
    (C4_proxy_response_classification.2.2.2.1 c4Controller 1 50 c4NotLeaderResp
      c4Req true (by decide) (by decide) rfl).2.2 rfl (by decide)⟩

/-! ## Claim C5 -/

/-- C5: config-change checking rejects, for every result of the raft
progress stage: any `AddNode` targeting a Learner-role replica and any
`AddLearnerNode` targeting a Voter-role replica
(`ErrInvalidConfigChangeRequest`); any single-change (simple-mode)
`RemoveNode`, or role-valid `AddLearnerNode`, targeting the current leader
replica (`ErrRemoveLeader`); and a single-change `RemoveNode` of a
non-leader replica passes these checks (the result is whatever the
progress stage decides). -/
theorem C5_config_change_checks :
    (∀ (r : Replica), r.role = .Learner →
      isValidConfigChangeRequest ⟨.AddNode, r⟩ = false) ∧
    (∀ (r : Replica), r.role = .Voter →
      isValidConfigChangeRequest ⟨.AddLearnerNode, r⟩ = false) ∧
    (∀ (progress : Option ConfChangeErr) (leader : Nat)
        (reqs : List ConfigChangeRequest) (ccr : ConfigChangeRequest),
      ccr ∈ reqs → isValidConfigChangeRequest ccr = false →
      checkConfChange progress leader reqs = some .invalidRequest) ∧
    (∀ (progress : Option ConfChangeErr) (leader : Nat)
        (ccr : ConfigChangeRequest),
      isValidConfigChangeRequest ccr = true →
      (ccr.changeType = .RemoveNode ∨ ccr.changeType = .AddLearnerNode) →
      ccr.replica.id = leader →
      checkConfChange progress leader [ccr] = some .removeLeader) ∧
    (∀ (progress : Option ConfChangeErr) (leader : Nat)
        (ccr : ConfigChangeRequest),
      ccr.changeType = .RemoveNode → ccr.replica.id ≠ leader →
      checkConfChange progress leader [ccr] = progress) := by
  refine ⟨?_, ?_, ?_, ?_, ?_⟩
  · intro r hr
    simp [isValidConfigChangeRequest, hr]
  · intro r hr
    simp [isValidConfigChangeRequest, hr]
  · intro progress leader reqs ccr hmem hinv
    have hany : reqs.any (fun c => !isValidConfigChangeRequest c) = true := by
      rw [List.any_eq_true]
      exact ⟨ccr, hmem, by rw [hinv]; rfl⟩
    simp [checkConfChange, hany]
  · intro progress leader ccr hval htyp hid
    have hany : ([ccr].any (fun c => !isValidConfigChangeRequest c)) = false := by
      simp [hval]
    have hlead : ([ccr].any
        (fun c => isRemovingOrDemotingLeader (getConfigChangeKind 1) c leader)) = true := by
      simp only [List.any_cons, List.any_nil, Bool.or_false]
      unfold isRemovingOrDemotingLeader getConfigChangeKind
      rcases htyp with h | h <;> simp [h, hid]
    simp [checkConfChange, hany, hlead]
  · intro progress leader ccr htyp hid
    have hany : ([ccr].any (fun c => !isValidConfigChangeRequest c)) = false := by
      simp [isValidConfigChangeRequest, htyp]
    have hlead : ([ccr].any
        (fun c => isRemovingOrDemotingLeader (getConfigChangeKind 1) c leader)) = false := by
      simp only [List.any_cons, List.any_nil, Bool.or_false]
      unfold isRemovingOrDemotingLeader
      simp [beq_eq_false_iff_ne.mpr hid]
    have hjoint : ([ccr].any
        (fun c => removingVoterDirectlyInJointConsensusCC (getConfigChangeKind 1) c)) = false := by
      simp only [List.any_cons, List.any_nil, Bool.or_false]
      unfold removingVoterDirectlyInJointConsensusCC getConfigChangeKind
      simp
    simp [checkConfChange, hany, hlead, hjoint]

/-- Witness for C5 at concrete inputs (leader replica ID 1). -/
theorem C5_config_change_checks_witness :
    isValidConfigChangeRequest ⟨.AddNode, ⟨100, 0, .Learner⟩⟩ = false ∧
    checkConfChange none 1 [⟨.AddLearnerNode, ⟨100, 0, .Voter⟩⟩] =
      some .invalidRequest ∧
    checkConfChange none 1 [⟨.RemoveNode, ⟨1, 0, .Voter⟩⟩] = some .removeLeader ∧
    checkConfChange (some .progressRejected) 1 [⟨.RemoveNode, ⟨100, 0, .Voter⟩⟩] =
      some .progressRejected ∧
    checkConfChange none 1 [⟨.RemoveNode, ⟨100, 0, .Voter⟩⟩] = none :=
  ⟨C5_config_change_checks.1 ⟨100, 0, .Learner⟩ rfl,
    C5_config_change_checks.2.2.1 none 1 [⟨.AddLearnerNode, ⟨100, 0, .Voter⟩⟩]
      ⟨.AddLearnerNode, ⟨100, 0, .Voter⟩⟩ (List.mem_singleton.mpr rfl) (by decide),
    C5_config_change_checks.2.2.2.1 none 1 ⟨.RemoveNode, ⟨1, 0, .Voter⟩⟩
      (by decide) (Or.inl rfl) rfl,
    C5_config_change_checks.2.2.2.2 (some .progressRejected) 1
      ⟨.RemoveNode, ⟨100, 0, .Voter⟩⟩ rfl (by decide),
    C5_config_change_checks.2.2.2.2 none 1 ⟨.RemoveNode, ⟨100, 0, .Voter⟩⟩
      rfl (by decide)⟩

/-! ## Claim C6 -/

/-- C6: `Get` returns exactly one outcome — the caller context's error or
the value/error bound by `done`, whichever signal fires first; a `done`
that completes binds the returned value and error; a second `done` call
before any `Close` (or `Get` receive) is a detectable programming error
(the non-blocking send panics); and after `Close`, every `done` call is a
no-op that leaves the future unchanged and cannot panic. -/
theorem C6_future_one_shot :
    (∀ (f : FutureState) (ctxDone pickCtx : Bool) (out : GetOutcome)
        (f' : FutureState),
      futureGet f ctxDone pickCtx = some (out, f') →
      out = .ctxErr ∨ out = .result f.value f.err) ∧
    (∀ (f : FutureState) (v : List Nat) (t : Option (List Nat))
        (e : Option String) (f' : FutureState),
      f.closed = false → futureDone f v t e = some f' →
      f'.value = v ∧ f'.err = e) ∧
    (∀ (f : FutureState) (v v' : List Nat) (t t' : Option (List Nat))
        (e e' : Option String),
      f.closed = false → f.chanClosed = false → f.chanTokens = 0 →
      ∃ f', futureDone f v t e = some f' ∧ futureDone f' v' t' e' = none) ∧
    (∀ (f f' : FutureState), futureClose f = some f' →
      ∀ (v : List Nat) (t : Option (List Nat)) (e : Option String),
        futureDone f' v t e = some f') := by
  refine ⟨?_, ?_, ?_, ?_⟩
  · intro f ctxDone pickCtx out f' h
    unfold futureGet at h
    by_cases h1 : (ctxDone &&
        (pickCtx || !(decide (0 < f.chanTokens) || f.chanClosed))) = true
    · rw [if_pos h1] at h
      injection h with h
      injection h with h _
      exact Or.inl h.symm
    · rw [if_neg h1] at h
      by_cases h2 : (decide (0 < f.chanTokens) || f.chanClosed) = true
      · rw [if_pos h2] at h
        by_cases h3 : 0 < f.chanTokens
        · rw [if_pos h3] at h
          injection h with h
          injection h with h _
          exact Or.inr h.symm
        · rw [if_neg h3] at h
          injection h with h
          injection h with h _
          exact Or.inr h.symm
      · rw [if_neg h2] at h
        exact absurd h (by simp)
  · intro f v t e f' hcl h
    unfold futureDone at h
    rw [hcl] at h
    simp only [Bool.false_eq_true, if_false] at h
    by_cases h1 : f.chanClosed = true
    · rw [if_pos h1] at h
      exact absurd h (by simp)
    · rw [if_neg h1] at h
      by_cases h2 : f.chanTokens < 1
      · rw [if_pos h2] at h
        injection h with h
        subst h
        exact ⟨rfl, rfl⟩
      · rw [if_neg h2] at h
        exact absurd h (by simp)
  · intro f v v' t t' e e' hcl hcc htk
    refine ⟨{ f with
        txnResponse := t.getD f.txnResponse
        value := v
        err := e
        chanTokens := 1 }, ?_, ?_⟩
    · unfold futureDone
      simp [hcl, hcc, htk]
    · unfold futureDone
      simp [hcl, hcc]
  · intro f f' hc v t e
    unfold futureClose at hc
    by_cases h1 : f.chanClosed = true
    · rw [if_pos h1] at hc
      exact absurd hc (by simp)
    · rw [if_neg h1] at hc
      injection hc with hc
      subst hc
      unfold futureDone
      simp

/-- Witness for C6 at concrete inputs: a fresh future is completed once,
a second completion panics, and a closed future ignores completions; a
`Get` on the completed future returns the bound value. -/
theorem C6_future_one_shot_witness :
    (∃ f', futureDone newFuture [7] none none = some f' ∧
      futureDone f' [8] none none = none) ∧
    (∀ f'', futureClose newFuture = some f'' →
      futureDone f'' [9] none none = some f'') ∧
    (∀ out f', futureGet newFuture true true = some (out, f') →
      out = .ctxErr ∨ out = .result newFuture.value newFuture.err) :=
  ⟨C6_future_one_shot.2.2.1 newFuture [7] [8] none none none none rfl rfl rfl,
    fun f'' h => C6_future_one_shot.2.2.2 newFuture f'' h [9] none none,
    fun out f' h => C6_future_one_shot.1 newFuture true true out f' h⟩

/-! ## Claim C10 -/

/-- C10: `HandleReportDestroyed` is idempotent: reporting a replica already
marked destroyed, or a replica ID not in the status's replica set, returns
the current state and leaves the `DestroyingStatus` unchanged; once the
status's state is `Destroyed` (or the shard is already removed), every
further report returns `Destroyed` without modifying any state. -/
theorem C10_report_destroyed_idempotent :
    (∀ (st : ClusterState) (id rid : Nat) (status : DestroyingStatus),
      alreadyRemoved st id = false →
      getDestroyingStatus st id = some status →
      status.state ≠ ShardState.Destroyed →
      (assocFind status.replicas rid = none ∨
        assocFind status.replicas rid = some true) →
      handleReportDestroyed st id rid = some (status.state, st)) ∧
    (∀ (st : ClusterState) (id rid : Nat) (status : DestroyingStatus),
      alreadyRemoved st id = false →
      getDestroyingStatus st id = some status →
      status.state = ShardState.Destroyed →
      handleReportDestroyed st id rid = some (ShardState.Destroyed, st)) ∧
    (∀ (st : ClusterState) (id rid : Nat),
      alreadyRemoved st id = true →
      handleReportDestroyed st id rid = some (ShardState.Destroyed, st)) := by
  refine ⟨?_, ?_, ?_⟩
  · intro st id rid status hrem hstat hnd hfind
    unfold handleReportDestroyed
    rw [hrem]
    simp only [Bool.false_eq_true, if_false, hstat]
    rw [beq_eq_false_iff_ne.mpr hnd]
    simp only [Bool.false_eq_true, if_false]
    rcases hfind with h | h <;> rw [h]
  · intro st id rid status hrem hstat hd
    unfold handleReportDestroyed
    rw [hrem]
    simp only [Bool.false_eq_true, if_false, hstat]
    rw [hd]
    rfl
  · intro st id rid hrem
    unfold handleReportDestroyed
    rw [hrem]
    rfl

/-- An in-progress destroying status over replicas `{1 (reported),
2 (pending)}` (C10 witness fixture). -/
def c10Status : DestroyingStatus :=
  { state := ShardState.Destroying
    index := 100
    replicas := [(1, true), (2, false)]
    removeData := true }

/-- A cluster state holding `c10Status` for shard 1 (C10 witness fixture). -/
def c10St : ClusterState :=
  { removed := [], destroying := [(1, c10Status)] }

/-- A destroyed status (C10 witness fixture). -/
def c10DoneStatus : DestroyingStatus :=
  { state := ShardState.Destroyed
    index := 100
    replicas := []
    removeData := true }

/-- A cluster state whose shard 3 is already removed with a destroyed
status (C10 witness fixture). -/
def c10DoneSt : ClusterState :=
  { removed := [3], destroying := [(3, c10DoneStatus)] }

/-- Witness for C10 at concrete inputs. -/
theorem C10_report_destroyed_idempotent_witness :
    handleReportDestroyed c10St 1 1 =
      some (ShardState.Destroying, c10St) ∧
    handleReportDestroyed c10St 1 9 =
      some (ShardState.Destroying, c10St) ∧
    handleReportDestroyed c10DoneSt 3 2 =
      some (ShardState.Destroyed, c10DoneSt) :=
  ⟨C10_report_destroyed_idempotent.1 c10St 1 1 c10Status
      rfl rfl (by decide) (Or.inr rfl),
    C10_report_destroyed_idempotent.1 c10St 1 9 c10Status
      rfl rfl (by decide) (Or.inl rfl),
    C10_report_destroyed_idempotent.2.2 c10DoneSt 3 2 rfl⟩

/-! ## Claim C9 -/

theorem updateLeaderLoop_skip {mu : RouterMu} {shardID lid : Nat} :
    ∀ (pre : List Replica) (p : Replica) (post : List Replica),
      (∀ q ∈ pre, q.id ≠ lid) →
      updateLeaderLoop mu shardID lid (pre ++ p :: post) =
        updateLeaderLoop mu shardID lid (p :: post) := by
  intro pre
  induction pre with
  | nil =>
    intro p post _
    rfl
  | cons q rest ih =>
    intro p post hq
    rw [List.cons_append]
    unfold updateLeaderLoop
    rw [if_neg (by simp [hq q (List.mem_cons_self _ _)])]
    exact ih p post (fun x hx => hq x (List.mem_cons_of_mem _ hx))

/-- C9: `UpdateLeader(shardID, 0)` leaves the router state unchanged for
every shard ID; for a nonzero leader replica ID, when the shard is present
but the named replica's store is not yet in the store map, the leader
mapping is untouched and the replica is parked in the deferred
missing-leader map (all other state unchanged); and a nonzero replica ID
for an absent shard is a fatal error (`none`), not a no-op. -/
theorem C9_update_leader_frame :
    (∀ (mu : RouterMu) (shardID : Nat),
      routerUpdateLeader mu shardID 0 = some mu) ∧
    (∀ (mu : RouterMu) (shardID lid : Nat) (shard : Shard)
        (pre : List Replica) (p : Replica) (post : List Replica),
      lid ≠ 0 →
      assocFind mu.shards shardID = some shard →
      shard.replicas = pre ++ p :: post →
      (∀ q ∈ pre, q.id ≠ lid) →
      p.id = lid →
      assocFind mu.stores p.storeID = none →
      routerUpdateLeader mu shardID lid = some { mu with
        missingLeaderStoreShards := assocSet mu.missingLeaderStoreShards shardID p }) ∧
    (∀ (mu : RouterMu) (shardID lid : Nat),
      lid ≠ 0 →
      assocFind mu.shards shardID = none →
      routerUpdateLeader mu shardID lid = none) := by
  refine ⟨?_, ?_, ?_⟩
  · intro mu shardID
    rfl
  · intro mu shardID lid shard pre p post hlid hshard hreps hpre hp hstore
    unfold routerUpdateLeader
    rw [if_neg (by simp [hlid])]
    unfold updateLeaderLocked
    rw [hshard]
    simp only [Option.some.injEq]
    rw [hreps, updateLeaderLoop_skip pre p post hpre]
    unfold updateLeaderLoop
    rw [if_pos (by simp [hp]), hstore]
  · intro mu shardID lid hlid hshard
    unfold routerUpdateLeader
    rw [if_neg (by simp [hlid])]
    unfold updateLeaderLocked
    rw [hshard]

/-- A shard whose leader replica 2 lives on the unknown store 9 (C9
witness fixture). -/
def c9Shard : Shard :=
  { id := 5
    group := 0
    start := []
    End := []
    epoch := ⟨1, 1⟩
    state := ShardState.Running
    replicas := [⟨1, 3, .Voter⟩, ⟨2, 9, .Voter⟩] }

/-- A router state holding only `c9Shard` (C9 witness fixture). -/
def c9Mu : RouterMu :=
  { keyRanges := [], leaders := [], stores := [],
    shards := [(5, c9Shard)],
    missingLeaderStoreShards := [], opts := [] }

/-- Witness for C9 at concrete inputs. -/
theorem C9_update_leader_frame_witness :
    routerUpdateLeader c9Mu 5 0 = some c9Mu ∧
    routerUpdateLeader c9Mu 5 2 = some { c9Mu with
      missingLeaderStoreShards := assocSet c9Mu.missingLeaderStoreShards 5 ⟨2, 9, .Voter⟩ } ∧
    routerUpdateLeader c9Mu 77 2 = none :=
  ⟨C9_update_leader_frame.1 c9Mu 5,
    C9_update_leader_frame.2.1 c9Mu 5 2 c9Shard
      [⟨1, 3, .Voter⟩] ⟨2, 9, .Voter⟩ []
      (by decide) rfl rfl (by decide) rfl rfl,
    C9_update_leader_frame.2.2 c9Mu 77 2 (by decide) rfl⟩

/-! ## Claim C3 -/

theorem selectStoreLocked_eq {mu : RouterMu} {shard : Shard} {r0 : Replica}
    {rest : List Replica} (hrep : shard.replicas = r0 :: rest) :
    selectStoreLocked mu shard =
      some (((r0 :: rest).getD ((((assocFind mu.opts shard.id).getD 0) + 1) % (r0 :: rest).length) default).storeID, { mu with opts := assocSet mu.opts shard.id (((assocFind mu.opts shard.id).getD 0) + 1) }) := by
  unfold selectStoreLocked
  rw [hrep]

/-- A shard with one replica on store 2 (C3 fixture). -/
def c3Shard : Shard :=
  { id := 1
    group := 0
    start := []
    End := []
    epoch := ⟨1, 1⟩
    state := ShardState.Running
    replicas := [⟨1, 2, .Voter⟩] }

/-- A router state holding `c3Shard` but no stores (C3 counterexample
fixture). -/
def c3Mu : RouterMu :=
  { keyRanges := [], leaders := [], stores := [], shards := [(1, c3Shard)],
    missingLeaderStoreShards := [], opts := [] }

/-- C3 counterexample: the claim says every public router query returns an
empty value on missing entries, for every `ReplicaSelectPolicy` and every
replica list.  On a state holding shard 1, `SelectReplicaStoreWithPolicy`
with `SelectLeaseHolder` panics (`none`), and `RandomReplicaStore` is
fatal (`none`) because the chosen replica's store 2 is not in the store
map. -/
theorem C3_counterexample :
    assocFind c3Mu.shards 1 = some c3Shard ∧
    routerSelectReplicaStoreWithPolicy c3Mu 1 .SelectLeaseHolder = none ∧
    routerRandomReplicaStore c3Mu 1 = none :=
  ⟨rfl, rfl, rfl⟩

/-- C3 (amended): the listed router queries never fail and return empty
values on missing entries, except that `SelectRandom` additionally
requires a non-empty replica list and the chosen replica's store to be
present (an empty list divides by zero and a missing store is fatal), and
`SelectLeaseHolder` is unimplemented and always panics when a shard is
selected. -/
theorem C3_router_query_totality :
    (∀ (mu : RouterMu) (group : Nat) (key : Key),
      ∃ out, routerSelectShardWithPolicy mu group key .SelectLeader = some out) ∧
    (∀ (mu : RouterMu) (group : Nat) (key : Key),
      assocFind mu.keyRanges group = none →
      assocFind mu.leaders emptyShard.id = none →
      routerSelectShard mu group key = some (emptyShard, "", mu)) ∧
    (∀ (mu : RouterMu) (shardID : Nat) (policy : ReplicaSelectPolicy),
      assocFind mu.shards shardID = none →
      routerSelectReplicaStoreWithPolicy mu shardID policy = some (emptyStore, mu)) ∧
    (∀ (mu : RouterMu) (shardID : Nat),
      ∃ out, routerSelectReplicaStoreWithPolicy mu shardID .SelectLeader = some out) ∧
    (∀ (mu : RouterMu) (shardID : Nat),
      assocFind mu.leaders shardID = none →
      routerLeaderReplicaStore mu shardID = emptyStore) ∧
    (∀ (mu : RouterMu) (id : Nat),
      assocFind mu.shards id = none → routerGetShard mu id = emptyShard) ∧
    (∀ (mu : RouterMu) (shardID : Nat) (shard : Shard),
      assocFind mu.shards shardID = some shard →
      shard.replicas ≠ [] →
      (∀ r ∈ shard.replicas, (assocFind mu.stores r.storeID).isSome = true) →
      (∃ out, routerRandomReplicaStore mu shardID = some out) ∧
      (∃ out, routerSelectReplicaStoreWithPolicy mu shardID .SelectRandom = some out)) ∧
    (∀ (mu : RouterMu) (shardID : Nat) (shard : Shard),
      assocFind mu.shards shardID = some shard →
      routerSelectReplicaStoreWithPolicy mu shardID .SelectLeaseHolder = none) := by
  refine ⟨?_, ?_, ?_, ?_, ?_, ?_, ?_, ?_⟩
  · intro mu group key
    exact ⟨_, rfl⟩
  · intro mu group key hkr hld
    simp only [routerSelectShard, routerSelectShardWithPolicy, searchShardLocked,
      selectReplicaStoreByPolicyLocked, getLeaderReplicaStoreLocked, hkr, hld]
    rfl
  · intro mu shardID policy hsh
    unfold routerSelectReplicaStoreWithPolicy
    rw [hsh]
  · intro mu shardID
    unfold routerSelectReplicaStoreWithPolicy
    rcases hsh : assocFind mu.shards shardID with _ | shard
    · exact ⟨_, rfl⟩
    · exact ⟨_, rfl⟩
  · intro mu shardID hld
    unfold routerLeaderReplicaStore getLeaderReplicaStoreLocked
    rw [hld]
    rfl
  · intro mu id hsh
    unfold routerGetShard
    rw [hsh]
    rfl
  · intro mu shardID shard hsh hne hstores
    obtain ⟨r0, rest, hrep⟩ := List.exists_cons_of_ne_nil hne
    have hidx : (((assocFind mu.opts shard.id).getD 0) + 1) % (r0 :: rest).length <
        (r0 :: rest).length :=
      Nat.mod_lt _ (by simp)
    have hmem : ((r0 :: rest).getD
        ((((assocFind mu.opts shard.id).getD 0) + 1) % (r0 :: rest).length)
        default) ∈ shard.replicas := by
      rw [hrep]
      rw [List.getD_eq_getElem _ _ hidx]
      exact List.getElem_mem hidx
    have hsome := hstores _ hmem
    obtain ⟨st, hst⟩ := Option.isSome_iff_exists.mp hsome
    constructor
    · have heq : routerRandomReplicaStore mu shardID = some (st, { mu with opts := assocSet mu.opts shard.id (((assocFind mu.opts shard.id).getD 0) + 1) }) := by
        simp only [routerRandomReplicaStore, hsh, selectStoreLocked_eq hrep,
          mustGetStoreLocked, hst]
      exact ⟨_, heq⟩
    · have heq : routerSelectReplicaStoreWithPolicy mu shardID .SelectRandom = some (st, { mu with opts := assocSet mu.opts shard.id (((assocFind mu.opts shard.id).getD 0) + 1) }) := by
        simp only [routerSelectReplicaStoreWithPolicy, hsh,
          selectReplicaStoreByPolicyLocked, selectStoreLocked_eq hrep,
          mustGetStoreLocked, hst]
      exact ⟨_, heq⟩
  · intro mu shardID shard hsh
    unfold routerSelectReplicaStoreWithPolicy
    rw [hsh]
    rfl

/-- A router state with `c3Shard` and its store present (C3 witness
fixture). -/
def c3GoodMu : RouterMu :=
  { keyRanges := [], leaders := [],
    stores := [(2, { id := 2, clientAddress := "s2", raftAddress := "r2" })],
    shards := [(1, c3Shard)],
    missingLeaderStoreShards := [], opts := [] }

/-- An empty router state (C3 witness fixture). -/
def c3EmptyMu : RouterMu :=
  { keyRanges := [], leaders := [], stores := [], shards := [],
    missingLeaderStoreShards := [], opts := [] }

/-- Witness for the amended C3 at concrete inputs. -/
theorem C3_router_query_totality_witness :
    routerSelectReplicaStoreWithPolicy c3EmptyMu 9 .SelectRandom =
      some (emptyStore, c3EmptyMu) ∧
    routerSelectShard c3EmptyMu 0 [1] = some (emptyShard, "", c3EmptyMu) ∧
    routerLeaderReplicaStore c3EmptyMu 9 = emptyStore ∧
    routerGetShard c3EmptyMu 9 = emptyShard ∧
    (∃ out, routerRandomReplicaStore c3GoodMu 1 = some out) ∧
    routerSelectReplicaStoreWithPolicy c3GoodMu 1 .SelectLeaseHolder = none :=
  ⟨C3_router_query_totality.2.2.1 c3EmptyMu 9 .SelectRandom rfl,
    C3_router_query_totality.2.1 c3EmptyMu 0 [1] rfl rfl,
    C3_router_query_totality.2.2.2.2.1 c3EmptyMu 9 rfl,
    C3_router_query_totality.2.2.2.2.2.1 c3EmptyMu 9 rfl,
    (C3_router_query_totality.2.2.2.2.2.2.1 c3GoodMu 1 c3Shard rfl
      (by decide) (by decide)).1,
    C3_router_query_totality.2.2.2.2.2.2.2 c3GoodMu 1 c3Shard rfl⟩

/-! ## Claim C7 -/

/-- One `ReportDestroyed` call, keeping only the state (`none` = fatal). -/
def applyReport (id : Nat) (st : ClusterState) (r : Nat) : Option ClusterState :=
  (handleReportDestroyed st id r).map (·.2)

/-- A sequence of `ReportDestroyed` calls for one shard. -/
def runReports (id : Nat) (st : ClusterState) (reports : List Nat) :
    Option ClusterState :=
  reports.foldlM (applyReport id) st

/-- The keys of an association list are distinct. -/
def keysNodup {α : Type} (l : List (Nat × α)) : Prop :=
  (l.map Prod.fst).Nodup

theorem assocFind_mem {α : Type} {l : List (Nat × α)} {k : Nat} {b : α}
    (h : assocFind l k = some b) : (k, b) ∈ l := by
  unfold assocFind at h
  rcases hf : l.find? (fun kv => kv.1 == k) with _ | kv
  · rw [hf] at h
    exact absurd h (by simp)
  · rw [hf] at h
    have hkv := List.find?_some hf
    have hmem := List.mem_of_find?_eq_some hf
    simp only [beq_iff_eq] at hkv
    simp at h
    have : kv = (k, b) := by
      cases kv
      simp_all
    rw [← this]
    exact hmem

theorem mem_assocSet {α : Type} {kv : Nat × α} :
    ∀ {l : List (Nat × α)} {k : Nat} {v : α},
      kv ∈ assocSet l k v → kv = (k, v) ∨ kv ∈ l := by
  intro l
  induction l with
  | nil =>
    intro k v h
    unfold assocSet at h
    exact Or.inl (List.mem_singleton.mp h)
  | cons x rest ih =>
    intro k v h
    unfold assocSet at h
    by_cases hx : (x.1 == k) = true
    · rw [if_pos hx] at h
      rcases List.mem_cons.mp h with h | h
      · exact Or.inl h
      · exact Or.inr (List.mem_cons_of_mem _ h)
    · rw [if_neg hx] at h
      rcases List.mem_cons.mp h with h | h
      · exact Or.inr (h ▸ List.mem_cons_self _ _)
      · rcases ih h with h | h
        · exact Or.inl h
        · exact Or.inr (List.mem_cons_of_mem _ h)

theorem mem_assocSet_ne {α : Type} {kv : Nat × α} :
    ∀ {l : List (Nat × α)} {k : Nat} {v : α}, keysNodup l →
      kv ∈ assocSet l k v → kv = (k, v) ∨ (kv ∈ l ∧ kv.1 ≠ k) := by
  intro l
  induction l with
  | nil =>
    intro k v _ h
    unfold assocSet at h
    exact Or.inl (List.mem_singleton.mp h)
  | cons x rest ih =>
    intro k v hnd h
    have hnd' : keysNodup rest ∧ x.1 ∉ rest.map Prod.fst := by
      unfold keysNodup at hnd ⊢
      rw [List.map_cons, List.nodup_cons] at hnd
      exact ⟨hnd.2, hnd.1⟩
    unfold assocSet at h
    by_cases hx : (x.1 == k) = true
    · rw [if_pos hx] at h
      rw [beq_iff_eq] at hx
      rcases List.mem_cons.mp h with h | h
      · exact Or.inl h
      · refine Or.inr ⟨List.mem_cons_of_mem _ h, ?_⟩
        intro hk
        exact hnd'.2 (hx ▸ hk ▸ List.mem_map_of_mem Prod.fst h)
    · rw [if_neg hx] at h
      rw [beq_iff_eq] at hx
      rcases List.mem_cons.mp h with h | h
      · exact Or.inr ⟨h ▸ List.mem_cons_self _ _, h ▸ hx⟩
      · rcases ih hnd'.1 h with h | h
        · exact Or.inl h
        · exact Or.inr ⟨List.mem_cons_of_mem _ h.1, h.2⟩

theorem assocSet_keysNodup {α : Type} :
    ∀ {l : List (Nat × α)} {k : Nat} {v : α}, keysNodup l →
      keysNodup (assocSet l k v) := by
  intro l
  induction l with
  | nil =>
    intro k v _
    show keysNodup [(k, v)]
    unfold keysNodup
    simp
  | cons x rest ih =>
    intro k v hnd
    unfold keysNodup at hnd
    rw [List.map_cons, List.nodup_cons] at hnd
    unfold assocSet
    by_cases hx : (x.1 == k) = true
    · rw [if_pos hx]
      rw [beq_iff_eq] at hx
      unfold keysNodup
      rw [List.map_cons, List.nodup_cons]
      exact ⟨by rw [← hx]; exact hnd.1, hnd.2⟩
    · rw [if_neg hx]
      rw [beq_iff_eq] at hx
      unfold keysNodup
      rw [List.map_cons, List.nodup_cons]
      constructor
      · intro hmem
        rcases List.mem_map.mp hmem with ⟨kv, hkv, hfst⟩
        rcases mem_assocSet hkv with rfl | hkv
        · exact hx hfst.symm
        · exact hnd.1 (hfst ▸ List.mem_map_of_mem Prod.fst hkv)
      · exact ih hnd.2

theorem assocFind_set_exists {α : Type} {l : List (Nat × α)} {k r : Nat} {v : α}
    (h : r = k ∨ ∃ b, assocFind l r = some b) :
    ∃ b, assocFind (assocSet l k v) r = some b := by
  by_cases hrk : r = k
  · subst hrk
    exact ⟨v, assocFind_set_self l r v⟩
  · rcases h with h | ⟨b, hb⟩
    · exact absurd h hrk
    · refine ⟨b, ?_⟩
      rw [assocFind_set_other l k r v hrk]
      exact hb

theorem replicasInit_values {R : List Nat} :
    ∀ {acc : List (Nat × Bool)}, (∀ kv ∈ acc, kv.2 = false) →
      ∀ kv ∈ R.foldl (fun m i => assocSet m i false) acc, kv.2 = false := by
  induction R with
  | nil =>
    intro acc hacc kv hkv
    exact hacc kv hkv
  | cons x rest ih =>
    intro acc hacc kv hkv
    rw [List.foldl_cons] at hkv
    refine ih ?_ kv hkv
    intro kv' hkv'
    rcases mem_assocSet hkv' with rfl | hkv'
    · rfl
    · exact hacc kv' hkv'

theorem replicasInit_keys {R : List Nat} :
    ∀ {acc : List (Nat × Bool)} {kv : Nat × Bool},
      kv ∈ R.foldl (fun m i => assocSet m i false) acc → kv.1 ∈ R ∨ kv ∈ acc := by
  induction R with
  | nil =>
    intro acc kv hkv
    exact Or.inr hkv
  | cons x rest ih =>
    intro acc kv hkv
    rw [List.foldl_cons] at hkv
    rcases ih hkv with h | h
    · exact Or.inl (List.mem_cons_of_mem _ h)
    · rcases mem_assocSet h with rfl | h
      · exact Or.inl (List.mem_cons_self _ _)
      · exact Or.inr h

theorem replicasInit_found {R : List Nat} :
    ∀ {acc : List (Nat × Bool)} {r : Nat},
      (r ∈ R ∨ ∃ b, assocFind acc r = some b) →
      ∃ b, assocFind (R.foldl (fun m i => assocSet m i false) acc) r = some b := by
  induction R with
  | nil =>
    intro acc r h
    rcases h with h | h
    · exact absurd h (List.not_mem_nil r)
    · exact h
  | cons x rest ih =>
    intro acc r h
    rw [List.foldl_cons]
    refine ih ?_
    rcases h with h | h
    · rcases List.mem_cons.mp h with rfl | h
      · exact Or.inr (assocFind_set_exists (Or.inl rfl))
      · exact Or.inl h
    · exact Or.inr (assocFind_set_exists (Or.inr h))

theorem replicasInit_keysNodup {R : List Nat} :
    ∀ {acc : List (Nat × Bool)}, keysNodup acc →
      keysNodup (R.foldl (fun m i => assocSet m i false) acc) := by
  induction R with
  | nil =>
    intro acc h
    exact h
  | cons x rest ih =>
    intro acc h
    rw [List.foldl_cons]
    exact ih (assocSet_keysNodup h)

/-- The inductive invariant of the destroy progression for shard `id` over
replica set `R`, after the replicas in `reported` have been reported. -/
def destroyInv (id : Nat) (R : List Nat) (reported : List Nat)
    (st : ClusterState) : Prop :=
  (¬ (∀ r ∈ R, r ∈ reported) ∧
    alreadyRemoved st id = false ∧
    ∃ status, getDestroyingStatus st id = some status ∧
      status.state = ShardState.Destroying ∧
      keysNodup status.replicas ∧
      (∀ kv ∈ status.replicas, kv.1 ∈ R ∧ (kv.2 = true ↔ kv.1 ∈ reported)) ∧
      (∀ r ∈ R, ∃ b, assocFind status.replicas r = some b))
  ∨ ((∀ r ∈ R, r ∈ reported) ∧
    ∃ status, getDestroyingStatus st id = some status ∧
      status.state = ShardState.Destroyed)

theorem mem_append_singleton_iff {x rid : Nat} {l : List Nat} :
    x ∈ l ++ [rid] ↔ (x ∈ l ∨ x = rid) := by
  simp

theorem saveDestroyingStatus_destroying (st : ClusterState) (id : Nat)
    (status : DestroyingStatus) (h : status.state = ShardState.Destroying) :
    saveDestroyingStatus st id status =
      { st with destroying := assocSet st.destroying id status } := by
  unfold saveDestroyingStatus
  rw [h]
  rfl

theorem saveDestroyingStatus_destroyed (st : ClusterState) (id : Nat)
    (status : DestroyingStatus) (h : status.state = ShardState.Destroyed) :
    saveDestroyingStatus st id status =
      { removed := id :: st.removed,
        destroying := assocSet st.destroying id status } := by
  unfold saveDestroyingStatus
  rw [h]
  rfl

theorem handleReportDestroyed_destroying (st : ClusterState) (id rid : Nat)
    {status : DestroyingStatus}
    (hrem : alreadyRemoved st id = false)
    (hstat : getDestroyingStatus st id = some status)
    (hdstate : status.state = ShardState.Destroying) :
    handleReportDestroyed st id rid =
      match assocFind status.replicas rid with
      | none => some (status.state, st)
      | some true => some (status.state, st)
      | some false =>
        let reps := assocSet status.replicas rid true
        let status' :=
          if reps.all (fun kv => kv.2) then
            { status with state := ShardState.Destroyed, replicas := [] }
          else { status with replicas := reps }
        some (status'.state, saveDestroyingStatus st id status') := by
  simp only [handleReportDestroyed, hrem, Bool.false_eq_true, if_false, hstat,
    hdstate]
  rfl

/-- The status `HandleCreateDestroying` installs: `Destroying`, with every
requested replica mapped to `false`. -/
def initialDestroyingStatus (req : CreateDestroyingReq) : DestroyingStatus :=
  { state := ShardState.Destroying
    index := req.index
    replicas := req.replicas.foldl (fun m i => assocSet m i false) []
    removeData := req.removeData }

theorem destroyInv_create {st0 : ClusterState} {req : CreateDestroyingReq}
    (hrem : alreadyRemoved st0 req.id = false)
    (hnone : getDestroyingStatus st0 req.id = none)
    (hne : req.replicas ≠ []) :
    (handleCreateDestroying st0 req).1 = ShardState.Destroying ∧
    destroyInv req.id req.replicas [] (handleCreateDestroying st0 req).2 := by
  have heq : handleCreateDestroying st0 req =
      (ShardState.Destroying,
        { st0 with destroying :=
            assocSet st0.destroying req.id (initialDestroyingStatus req) }) := by
    simp only [handleCreateDestroying, hrem, Bool.false_eq_true, if_false, hnone]
    rw [saveDestroyingStatus_destroying _ _ _ rfl]
    rfl
  rw [heq]
  refine ⟨rfl, Or.inl ⟨?_, hrem, _, assocFind_set_self _ _ _, rfl, ?_, ?_, ?_⟩⟩
  · intro hall
    obtain ⟨r0, rest, hrep⟩ := List.exists_cons_of_ne_nil hne
    exact absurd (hall r0 (by rw [hrep]; exact List.mem_cons_self _ _))
      (List.not_mem_nil r0)
  · exact replicasInit_keysNodup (by unfold keysNodup; simp)
  · intro kv hkv
    refine ⟨?_, ?_⟩
    · rcases replicasInit_keys hkv with h | h
      · exact h
      · exact absurd h (List.not_mem_nil kv)
    · rw [replicasInit_values (fun kv' hkv' => absurd hkv' (List.not_mem_nil kv')) kv hkv]
      simp
  · intro r hr
    exact replicasInit_found (Or.inl hr)

theorem destroyInv_step {id : Nat} {R reported : List Nat} {st : ClusterState}
    (h : destroyInv id R reported st) (rid : Nat) :
    ∃ st', applyReport id st rid = some st' ∧
      destroyInv id R (reported ++ [rid]) st' := by
  rcases h with ⟨hnall, hrem, status, hstat, hdstate, hnd, hclause, hfound⟩ |
    ⟨hall, status, hstat, hdstate⟩
  · -- in progress: the status is Destroying
    obtain ⟨r0, hr0R, hr0rep⟩ : ∃ r0 ∈ R, r0 ∉ reported := by
      by_contra hcon
      push_neg at hcon
      exact hnall hcon
    have hrep := handleReportDestroyed_destroying st id rid hrem hstat hdstate
    rcases hfind : assocFind status.replicas rid with _ | b
    · -- unknown replica id: no-op
      have hnR : rid ∉ R := by
        intro hR
        obtain ⟨b, hb⟩ := hfound rid hR
        rw [hfind] at hb
        exact Option.noConfusion hb
      refine ⟨st, ?_, Or.inl ⟨?_, hrem, status, hstat, hdstate, hnd, ?_, ?_⟩⟩
      · unfold applyReport
        rw [hrep, hfind]
        rfl
      · intro hall
        rcases mem_append_singleton_iff.mp (hall r0 hr0R) with h | h
        · exact hr0rep h
        · exact hnR (h ▸ hr0R)
      · intro kv hkv
        have hc := hclause kv hkv
        refine ⟨hc.1, ?_⟩
        rw [hc.2, mem_append_singleton_iff]
        constructor
        · exact Or.inl
        · rintro (h | h)
          · exact h
          · exact absurd (h ▸ hc.1) hnR
      · exact hfound
    · cases b
      · -- pending replica: mark it
        have hmemf : (rid, false) ∈ status.replicas := assocFind_mem hfind
        have hridR : rid ∈ R := (hclause _ hmemf).1
        have hridrep : rid ∉ reported := by
          intro hmem
          exact Bool.noConfusion ((hclause _ hmemf).2.mpr hmem)
        have hndreps : keysNodup (assocSet status.replicas rid true) :=
          assocSet_keysNodup hnd
        have hclause' : ∀ kv ∈ assocSet status.replicas rid true,
            kv.1 ∈ R ∧ (kv.2 = true ↔ kv.1 ∈ reported ++ [rid]) := by
          intro kv hkv
          rcases mem_assocSet_ne hnd hkv with rfl | ⟨hkv, hne'⟩
          · exact ⟨hridR, by simp⟩
          · have hc := hclause kv hkv
            refine ⟨hc.1, ?_⟩
            rw [hc.2, mem_append_singleton_iff]
            constructor
            · exact Or.inl
            · rintro (h | h)
              · exact h
              · exact absurd h hne'
        have hfound' : ∀ r ∈ R, ∃ b, assocFind (assocSet status.replicas rid true) r = some b := by
          intro r hr
          by_cases hr' : r = rid
          · exact assocFind_set_exists (Or.inl hr')
          · exact assocFind_set_exists (Or.inr (hfound r hr))
        by_cases hallb : ((assocSet status.replicas rid true).all (fun kv => kv.2)) = true
        · -- last pending replica: the status flips to Destroyed
          have hAll' : ∀ r ∈ R, r ∈ reported ++ [rid] := by
            intro r hr
            obtain ⟨b, hb⟩ := hfound' r hr
            have hmem := assocFind_mem hb
            have hbtrue : b = true := List.all_eq_true.mp hallb _ hmem
            exact (hclause' _ hmem).2.mp hbtrue
          refine ⟨{ removed := id :: st.removed, destroying := assocSet st.destroying id { status with state := ShardState.Destroyed, replicas := [] } }, ?_, ?_⟩
          · unfold applyReport
            rw [hrep, hfind]
            simp only [hallb, if_true]
            rw [saveDestroyingStatus_destroyed _ _ { status with state := ShardState.Destroyed, replicas := [] } rfl]
            rfl
          · refine Or.inr ⟨hAll', { status with state := ShardState.Destroyed, replicas := [] }, ?_, rfl⟩
            show assocFind (assocSet st.destroying id _) id = some _
            exact assocFind_set_self _ _ _
        · -- still pending replicas: stays Destroying
          have hnall' : ¬ (∀ r ∈ R, r ∈ reported ++ [rid]) := by
            intro hall
            rw [Bool.not_eq_true, List.all_eq_false] at hallb
            obtain ⟨kv, hkv, hkv2⟩ := hallb
            have hc := hclause' kv hkv
            exact hkv2 (hc.2.mpr (hall kv.1 hc.1))
          refine ⟨{ st with destroying := assocSet st.destroying id { status with replicas := assocSet status.replicas rid true } }, ?_, ?_⟩
          · unfold applyReport
            rw [hrep, hfind]
            simp only [hallb, Bool.false_eq_true, if_false]
            rw [saveDestroyingStatus_destroying _ _ { status with replicas := assocSet status.replicas rid true } hdstate]
            rfl
          · refine Or.inl ⟨hnall', hrem, { status with replicas := assocSet status.replicas rid true }, ?_, hdstate, hndreps, hclause', hfound'⟩
            show assocFind (assocSet st.destroying id _) id = some _
            exact assocFind_set_self _ _ _
      · -- already-reported replica: no-op
        have hmemt : (rid, true) ∈ status.replicas := assocFind_mem hfind
        have hridrep : rid ∈ reported := (hclause _ hmemt).2.mp rfl
        refine ⟨st, ?_, Or.inl ⟨?_, hrem, status, hstat, hdstate, hnd, ?_, hfound⟩⟩
        · unfold applyReport
          rw [hrep, hfind]
          rfl
        · intro hall
          rcases mem_append_singleton_iff.mp (hall r0 hr0R) with h | h
          · exact hr0rep h
          · exact hr0rep (h ▸ hridrep)
        · intro kv hkv
          have hc := hclause kv hkv
          refine ⟨hc.1, ?_⟩
          rw [hc.2, mem_append_singleton_iff]
          constructor
          · exact Or.inl
          · rintro (h | h)
            · exact h
            · exact h ▸ hridrep
  · -- already destroyed: every further report is a no-op
    refine ⟨st, ?_, Or.inr ⟨?_, status, hstat, hdstate⟩⟩
    · unfold applyReport
      rcases hr : alreadyRemoved st id with _ | _
      · have : handleReportDestroyed st id rid = some (ShardState.Destroyed, st) := by
          simp only [handleReportDestroyed, hr, Bool.false_eq_true, if_false, hstat,
            hdstate]
          rfl
        rw [this]
        rfl
      · have : handleReportDestroyed st id rid = some (ShardState.Destroyed, st) := by
          simp only [handleReportDestroyed, hr, if_true]
        rw [this]
        rfl
    · intro r hr
      exact List.mem_append_left _ (hall r hr)

theorem destroyInv_run {id : Nat} {R : List Nat} :
    ∀ (reports : List Nat) {reported : List Nat} {st : ClusterState},
      destroyInv id R reported st →
      ∃ st', runReports id st reports = some st' ∧
        destroyInv id R (reported ++ reports) st' := by
  intro reports
  induction reports with
  | nil =>
    intro reported st h
    exact ⟨st, rfl, by rw [List.append_nil]; exact h⟩
  | cons r rs ih =>
    intro reported st h
    obtain ⟨st1, hst1, hinv1⟩ := destroyInv_step h r
    obtain ⟨st', hst', hinv'⟩ := ih hinv1
    refine ⟨st', ?_, ?_⟩
    · unfold runReports at hst' ⊢
      rw [List.foldlM_cons, hst1]
      exact hst'
    · rw [show reported ++ r :: rs = (reported ++ [r]) ++ rs by simp]
      exact hinv'

/-- An empty cluster state (C7 fixture). -/
def c7St0 : ClusterState := { removed := [], destroying := [] }

/-- A create-destroying request over the empty replica set (C7
counterexample fixture). -/
def c7EmptyReq : CreateDestroyingReq :=
  { id := 1, index := 100, replicas := [], removeData := true }

/-- C7 counterexample: for a `DestroyingStatus` created over the empty
replica set, `ReportDestroyed` has (vacuously) been observed for every
replica in `R`, yet `GetDestroying` returns `Destroying` — and any further
report leaves it `Destroying` — so the state never becomes `Destroyed`. -/
theorem C7_counterexample :
    c7EmptyReq.replicas = [] ∧
    (∀ r ∈ c7EmptyReq.replicas, r ∈ ([] : List Nat)) ∧
    ((handleGetDestroying (handleCreateDestroying c7St0 c7EmptyReq).2
      c7EmptyReq.id).map (fun s => s.state) = some ShardState.Destroying) ∧
    handleReportDestroyed (handleCreateDestroying c7St0 c7EmptyReq).2
        c7EmptyReq.id 5 =
      some (ShardState.Destroying, (handleCreateDestroying c7St0 c7EmptyReq).2) :=
  ⟨rfl, fun r hr => absurd hr (List.not_mem_nil r), rfl, rfl⟩

/-- C7 (amended): for a shard whose `DestroyingStatus` was created over a
non-empty replica set `R` by `CreateDestroying` (from a state where the
shard is neither removed nor already destroying), after any sequence of
`ReportDestroyed` calls the status's state is `Destroying` while some
replica of `R` has not been reported, and once every replica of `R` has
been reported the state is `Destroyed` — and stays so for every further
report sequence, every subsequent `GetDestroying` returning `Destroyed`. -/
theorem C7_destroy_progression (st0 : ClusterState) (req : CreateDestroyingReq)
    (hrem : alreadyRemoved st0 req.id = false)
    (hnone : getDestroyingStatus st0 req.id = none)
    (hne : req.replicas ≠ []) :
    (handleCreateDestroying st0 req).1 = ShardState.Destroying ∧
    ∀ (reports : List Nat),
      ∃ st', runReports req.id (handleCreateDestroying st0 req).2 reports = some st' ∧
        ((∃ r ∈ req.replicas, r ∉ reports) →
          (handleGetDestroying st' req.id).map (fun s => s.state) =
            some ShardState.Destroying) ∧
        ((∀ r ∈ req.replicas, r ∈ reports) →
          (handleGetDestroying st' req.id).map (fun s => s.state) =
            some ShardState.Destroyed) := by
  obtain ⟨hfst, hinv0⟩ := destroyInv_create hrem hnone hne
  refine ⟨hfst, ?_⟩
  intro reports
  obtain ⟨st', hrun, hinv⟩ := destroyInv_run reports hinv0
  rw [List.nil_append] at hinv
  refine ⟨st', hrun, ?_, ?_⟩
  · rintro ⟨r, hrR, hrrep⟩
    rcases hinv with ⟨_, _, status, hstat, hdstate, _⟩ | ⟨hall, _⟩
    · unfold handleGetDestroying
      rw [hstat]
      simp [hdstate]
    · exact absurd (hall r hrR) hrrep
  · intro hall
    rcases hinv with ⟨hnall, _⟩ | ⟨_, status, hstat, hdstate⟩
    · exact absurd hall hnall
    · unfold handleGetDestroying
      rw [hstat]
      simp [hdstate]

/-- A create-destroying request over replicas `{1, 2}` (C7 witness
fixture). -/
def c7Req : CreateDestroyingReq :=
  { id := 1, index := 100, replicas := [1, 2], removeData := true }

/-- Witness for the amended C7 at concrete inputs. -/
theorem C7_destroy_progression_witness :
    alreadyRemoved c7St0 c7Req.id = false ∧
    getDestroyingStatus c7St0 c7Req.id = none ∧
    c7Req.replicas ≠ [] ∧
    ((handleCreateDestroying c7St0 c7Req).1 = ShardState.Destroying ∧
      ∀ (reports : List Nat),
        ∃ st', runReports c7Req.id (handleCreateDestroying c7St0 c7Req).2 reports = some st' ∧
          ((∃ r ∈ c7Req.replicas, r ∉ reports) →
            (handleGetDestroying st' c7Req.id).map (fun s => s.state) =
              some ShardState.Destroying) ∧
          ((∀ r ∈ c7Req.replicas, r ∈ reports) →
            (handleGetDestroying st' c7Req.id).map (fun s => s.state) =
              some ShardState.Destroyed)) :=
  ⟨rfl, rfl, by decide,
    C7_destroy_progression c7St0 c7Req rfl rfl (by decide)⟩

/-! ## Claim C2 -/

/-- Shard `[97, 122)` (C2 counterexample fixture). -/
def c2A : Shard :=
  { id := 1, group := 0, start := [97], End := [122], epoch := ⟨1, 1⟩,
    state := ShardState.Running, replicas := [] }

/-- Shard with the inverted range `[99, 97)` (C2 counterexample fixture). -/
def c2B : Shard :=
  { id := 2, group := 0, start := [99], End := [97], epoch := ⟨1, 1⟩,
    state := ShardState.Running, replicas := [] }

/-- Shard `[100, 120)` (C2 counterexample fixture). -/
def c2C : Shard :=
  { id := 3, group := 0, start := [100], End := [120], epoch := ⟨1, 1⟩,
    state := ShardState.Running, replicas := [] }

/-- The update sequence of the C2 counterexample. -/
def c2CexOps : List TreeOp :=
  [TreeOp.update [c2A], TreeOp.update [c2B], TreeOp.update [c2C]]

/-- C2 counterexample: after updating with `[97,122)`, the inverted shard
`[99,97)` and `[100,120)`, both `[97,122)` and `[100,120)` remain stored
and overlap, and both contain the key `[100]` — so the ranges are not
pairwise non-overlapping and `Search` does not return a unique containing
shard. -/
theorem C2_counterexample :
    c2A ∈ runTreeOps c2CexOps ∧
    c2C ∈ runTreeOps c2CexOps ∧
    c2A ≠ c2C ∧
    Overlap c2A c2C ∧
    containsP c2A [100] ∧
    containsP c2C [100] ∧
    treeSearch (runTreeOps c2CexOps) [100] = c2C := by
  decide

/-- C2 (amended): starting from the empty ShardTree, after any sequence of
Update and Remove operations in which every inserted shard has a
well-formed range (`start < end`, or an empty `end` meaning +infinity),
the stored shards' ranges are pairwise non-overlapping; Update skips
shards whose state is `Destroying` or `Destroyed`; and for any key `k`,
`Search(k)` returns the unique stored shard whose range `[start, end)`
contains `k`, or the empty shard when no stored range contains `k`. -/
theorem C2_shardtree_coverage (ops : List TreeOp)
    (hwf : ∀ op ∈ ops, TreeOpWF op) :
    TreeNoOverlap (runTreeOps ops) ∧
    (∀ (t : List Shard) (sh : Shard),
      sh.state = ShardState.Destroying ∨ sh.state = ShardState.Destroyed →
      treeUpdate1 t sh = t) ∧
    (∀ key : Key,
      (∃ s, s ∈ runTreeOps ops ∧ containsP s key ∧
        treeSearch (runTreeOps ops) key = s ∧
        ∀ s' ∈ runTreeOps ops, containsP s' key → s' = s) ∨
      (treeSearch (runTreeOps ops) key = emptyShard ∧
        ∀ s ∈ runTreeOps ops, ¬ containsP s key)) := by
  have hinv := treeInv_runTreeOps hwf
  exact ⟨hinv.2.1, fun t sh h => treeUpdate1_skip h,
    fun key => treeSearch_spec hinv key⟩

/-- The whole-space shard (C2 witness fixture). -/
def c2S1 : Shard :=
  { id := 1, group := 0, start := [], End := [], epoch := ⟨1, 1⟩,
    state := ShardState.Running, replicas := [] }

/-- The left split child `[-inf, 109)` (C2 witness fixture). -/
def c2S2 : Shard :=
  { id := 2, group := 0, start := [], End := [109], epoch := ⟨2, 1⟩,
    state := ShardState.Running, replicas := [] }

/-- The right split child `[109, +inf)` (C2 witness fixture). -/
def c2S3 : Shard :=
  { id := 3, group := 0, start := [109], End := [], epoch := ⟨2, 1⟩,
    state := ShardState.Running, replicas := [] }

/-- A create-then-split-then-remove operation sequence (C2 witness
fixture). -/
def c2WitnessOps : List TreeOp :=
  [TreeOp.update [c2S1], TreeOp.update [c2S2, c2S3], TreeOp.remove c2S2]

/-- Witness for the amended C2 at a concrete operation sequence. -/
theorem C2_shardtree_coverage_witness :
    (∀ op ∈ c2WitnessOps, TreeOpWF op) ∧
    (TreeNoOverlap (runTreeOps c2WitnessOps) ∧
      (∀ (t : List Shard) (sh : Shard),
        sh.state = ShardState.Destroying ∨ sh.state = ShardState.Destroyed →
        treeUpdate1 t sh = t) ∧
      (∀ key : Key,
        (∃ s, s ∈ runTreeOps c2WitnessOps ∧ containsP s key ∧
          treeSearch (runTreeOps c2WitnessOps) key = s ∧
          ∀ s' ∈ runTreeOps c2WitnessOps, containsP s' key → s' = s) ∨
        (treeSearch (runTreeOps c2WitnessOps) key = emptyShard ∧
          ∀ s ∈ runTreeOps c2WitnessOps, ¬ containsP s key))) :=
  ⟨by decide, C2_shardtree_coverage c2WitnessOps (by decide)⟩

end MatrixCube
